import Mathlib

/-!
Verification of the declarative object-graph builder of `transfer_nlp`
(`transfer_nlp/plugins/config.py`) against its natural-language specification.

The Python code is shallowly embedded: configuration values become the
inductive type `Val`; a registered class is a `ClassSpec` (its constructor's
argument names and default values, what `inspect.getfullargspec` yields);
`ExperimentConfig.__init__` becomes `expInit`, and `ExperimentConfig._build_items`
becomes `build_items`.  Python dicts are insertion-ordered association lists
(`List (String × α)`): assignment is `aset` (replace in place or append),
lookup is `alookup` (first matching key), membership is `ahasKey`.
-/

namespace TNLP

/-- First value bound to `k`, mirroring Python dict lookup. -/
def alookup {α : Type} : List (String × α) → String → Option α
  | [], _ => none
  | (k, v) :: rest, key => if k = key then some v else alookup rest key

/-- Python dict membership `key in d`. -/
def ahasKey {α : Type} (l : List (String × α)) (key : String) : Bool :=
  (alookup l key).isSome

/-- Python dict assignment `d[k] = v`: replaces the value in place if the key
is present, appends otherwise (insertion order preserved). -/
def aset {α : Type} : List (String × α) → String → α → List (String × α)
  | [], key, v => [(key, v)]
  | (k, w) :: rest, key, v =>
      if k = key then (k, v) :: rest else (k, w) :: aset rest key v

/-- Keys of an association list, in order. -/
def akeys {α : Type} (l : List (String × α)) : List String :=
  l.map Prod.fst

/-! ### Python string replacement (`str.replace`) -/

/-- `str.replace` with an empty pattern: the replacement is interleaved
before every character and once at the end, as Python does. -/
def interleaveRep (rep : List Char) : List Char → List Char
  | [] => rep
  | c :: cs => rep ++ c :: interleaveRep rep cs

/-- `str.replace` on character lists for a nonempty pattern: replaces
non-overlapping occurrences left to right; replaced text is not rescanned. -/
def replaceCore (pat rep : List Char) (hp : pat ≠ []) : List Char → List Char
  | [] => []
  | c :: cs =>
      if pat.isPrefixOf (c :: cs) then
        rep ++ replaceCore pat rep hp ((c :: cs).drop pat.length)
      else
        c :: replaceCore pat rep hp cs
  termination_by s => s.length
  decreasing_by
  · simp only [List.length_drop, List.length_cons]
    have hlen : 0 < pat.length := List.length_pos.mpr hp
    omega
  · simp

/-- Python `s.replace(pat, rep)`. -/
def pyReplace (s pat rep : String) : String :=
  if h : pat.toList = [] then String.mk (interleaveRep rep.toList s.toList)
  else String.mk (replaceCore pat.toList rep.toList h s.toList)

/-! ### Environment substitution (`ExperimentConfig.__init__.do_env_subs`) -/

/-- Stable insertion into a list sorted by key length, longest first:
`x` moves past the strictly longer keys only, so it stays before every
equal-length entry of the tail — the tail holds the entries declared after
`x`, and `sorted(env.keys(), key=len, reverse=True)` is stable. -/
def insertByLen (x : String × String) : List (String × String) → List (String × String)
  | [] => [x]
  | y :: ys => if x.1.length < y.1.length then y :: insertByLen x ys else x :: y :: ys

/-- Stable sort of the substitution entries, longest key first. -/
def sortKeysDesc : List (String × String) → List (String × String)
  | [] => []
  | x :: xs => insertByLen x (sortKeysDesc xs)

/-- Configuration / runtime values.  `vobj cls params` stands for the object
  constructed by `clazz(**params)`; `vself` is the `ExperimentConfig`
  instance bound to the reserved parameter name `experiment_config`. -/
inductive Val : Type
  | vnull : Val
  | vbool : Bool → Val
  | vint : Int → Val
  | vstr : String → Val
  | vlist : List Val → Val
  | vdict : List (String × Val) → Val
  | vobj : String → List (String × Val) → Val
  | vself : Val

/-- Scalar test of the classifier:
`not isinstance(v, dict) and not isinstance(v, list)`. -/
def isScalar : Val → Bool
  | .vdict _ => false
  | .vlist _ => false
  | _ => true

/-- One fold step of `do_env_subs`: `v_upd = v_upd.replace(key, env[key])`. -/
def applyOneKey (s : String) (kv : String × String) : String :=
  pyReplace s kv.1 kv.2

/-- `do_env_subs`: on a string, every substitution key is applied once, in
  longest-key-first order; any other value is returned unchanged. -/
def do_env_subs (env : List (String × String)) (v : Val) : Val :=
  match v with
  | .vstr s => .vstr ((sortKeysDesc env).foldl applyOneKey s)
  | w => w

/-! ### Registry and descriptors -/

/-- What `inspect.getfullargspec(clazz.__init__)` yields: the positional
argument names (the receiver `self` first) and the trailing default values. -/
structure ClassSpec : Type where
  args : List String
  defaults : List Val

/-- The `CLASSES` registry: type name to constructor spec. -/
def Registry : Type := List (String × ClassSpec)

/-- `default_params`: `zip(reversed(spec.args), reversed(spec.defaults))`,
pairing the last argument names with the default values. -/
def defaultParamsOf (cls : ClassSpec) : List (String × Val) :=
  cls.args.reverse.zip cls.defaults.reverse

/-- Provenance records (`self.factories`): `ParamFactory` for scalars, the
`list` `PluginFactory` for scalar lists, and an ordinary `PluginFactory`
carrying the class name, `param2config_key` and the keyword params. -/
inductive Factory : Type
  | param : Val → Factory
  | listF : List Val → Factory
  | plugin : String → List (String × Option Val) → List (String × Val) → Factory

/-- Errors of a resolution run: Python `ValueError` (malformed entry or
unregistered type) and `UnconfiguredItemsException` with its `items` dict. -/
inductive BuildErr : Type
  | valueError : String → BuildErr
  | unconfigured : List (String × List String) → BuildErr

/-- Outcome of one attempt at one descriptor: constructed, or the set of
constructor parameters still missing. -/
inductive BuildOutcome : Type
  | built : Val → Factory → BuildOutcome
  | missing : List String → BuildOutcome

/-- `p[-1] == '_'` (the literal-override marker test; an empty name, which
Python would crash on, tests false). -/
def endsUnd (s : String) : Bool :=
  match s.toList.getLast? with
  | some c => c = '_'
  | none => false

/-- `p[:-1]`: the parameter name with the trailing marker stripped. -/
def stripLast (s : String) : String := String.mk s.toList.dropLast

/-- Lines 217–228: one pass over the descriptor's fields, collecting
`literal_params` (trailing-underscore names, marker stripped) and raising
`ValueError` on a parameter value that is neither a string nor a list of
strings (literal fields excepted). -/
def validateAndLiterals : List (String × Val) → Except String (List (String × Val))
  | [] => .ok []
  | (p, pv) :: rest =>
      if endsUnd p then
        match validateAndLiterals rest with
        | .ok lit => .ok ((stripLast p, pv) :: lit)
        | .error e => .error e
      else
        match pv with
        | .vstr _ =>
            validateAndLiterals rest
        | .vlist els =>
            if els.all (fun e => match e with | .vstr _ => true | _ => false) then
              validateAndLiterals rest
            else .error "string required for parameter names in list parameters"
        | _ => .error "string required for parameter names"

/-- Resolve a list alias: every element must be a string naming a key already
present in `experiment`; the resolved values are collected in order.
(`param_list` reaches the length of the alias exactly when no lookup broke.) -/
def lookupAll (exp : List (String × Val)) : List Val → Option (List Val)
  | [] => some []
  | .vstr s :: rest =>
      match alookup exp s with
      | some w =>
          match lookupAll exp rest with
          | some ws => some (w :: ws)
          | none => none
      | none => none
  | _ :: _ => none

/-- Lines 230–260, the value finally held by `params[arg]` after the body of
the argument loop ran for `arg` (`none` when `params[arg]` was never set):
literal override first; otherwise the reserved name `experiment_config` is
pre-bound to the resolver, then the alias / direct-match / tiered-default
`if/elif` chain may overwrite that binding. -/
def fillArg (cfgKeys : List String) (exp : List (String × Val)) (mode : Nat)
    (lit named defp : List (String × Val)) (arg : String) : Option Val :=
  match alookup lit arg with
  | some w => some w
  | none =>
    let base : Option Val := if arg = "experiment_config" then some Val.vself else none
    match alookup named arg with
    | some (.vlist names) =>
        match lookupAll exp names with
        | some vs => some (.vlist vs)
        | none => base
    | some (.vstr a) =>
        match alookup exp a with
        | some w => some w
        | none => base
    | some _ => base
    | none =>
        match alookup exp arg with
        | some w => some w
        | none =>
            if mode = 1 ∧ ¬ cfgKeys.contains arg ∧ (alookup defp arg).isSome then
              alookup defp arg
            else if mode = 2 ∧ (alookup defp arg).isSome then
              alookup defp arg
            else base

/-- The `param2config_key[arg]` entry recorded for `arg` (`none` when it was
never set): `some none` is Python `None` (literal or default), `some (some a)`
records an alias value or the parameter's own name. -/
def fillSrc (exp : List (String × Val)) (mode : Nat) (cfgKeys : List String)
    (lit named defp : List (String × Val)) (arg : String) : Option (Option Val) :=
  match alookup lit arg with
  | some _ => some none
  | none =>
    match alookup named arg with
    | some al => some (some al)
    | none =>
        if (alookup exp arg).isSome then some (some (.vstr arg))
        else if mode = 1 ∧ ¬ cfgKeys.contains arg ∧ (alookup defp arg).isSome then some none
        else if mode = 2 ∧ (alookup defp arg).isSome then some none
        else if arg = "experiment_config" then some (some (.vstr arg))
        else none

/-- The argument loop of lines 230–260: builds the `params` dict (and
`param2config_key`) by visiting `spec.args[1:]` in order. -/
def buildParamsStep (cfgKeys : List String) (exp : List (String × Val)) (mode : Nat)
    (lit named defp : List (String × Val))
    (acc : List (String × Val) × List (String × Option Val)) (arg : String) :
    List (String × Val) × List (String × Option Val) :=
  let ps' := match fillArg cfgKeys exp mode lit named defp arg with
    | some v => aset acc.1 arg v
    | none => acc.1
  let pks' := match fillSrc exp mode cfgKeys lit named defp arg with
    | some e => aset acc.2 arg e
    | none => acc.2
  (ps', pks')

/-- The `params` and `param2config_key` dicts after the whole argument loop. -/
def buildParams (cfgKeys : List String) (exp : List (String × Val)) (mode : Nat)
    (lit named defp : List (String × Val)) (argsTail : List String) :
    List (String × Val) × List (String × Option Val) :=
  argsTail.foldl (buildParamsStep cfgKeys exp mode lit named defp) ([], [])

/-- Lines 198–267, the loop body for one pending entry `(k, v)`:
`ValueError` on a non-dict value, a missing `_name`, or an unregistered type;
otherwise parameter validation, then the argument loop; the descriptor is
constructed exactly when `len(params) == len(spec.args) - 1`. -/
def tryBuildOne (reg : Registry) (cfgKeys : List String) (exp : List (String × Val))
    (mode : Nat) (v : Val) : Except String BuildOutcome :=
  match v with
  | .vdict fields =>
      match alookup fields "_name" with
      | none => .error "complex configuration object must have a _name property"
      | some nameVal =>
          let clazz : Option (String × ClassSpec) :=
            match nameVal with
            | .vstr n =>
                match alookup reg n with
                | some cls => some (n, cls)
                | none => none
            | _ => none
          match clazz with
          | none => .error "name is not registered"
          | some (n, cls) =>
              match validateAndLiterals fields with
              | .error e => .error e
              | .ok lit =>
                  let named := fields.filter (fun pkv => pkv.1 ≠ "_name")
                  let defp := defaultParamsOf cls
                  let (params, p2ck) :=
                    buildParams cfgKeys exp mode lit named defp (cls.args.drop 1)
                  if (params.length : Int) = (cls.args.length : Int) - 1 then
                    .ok (.built (.vobj n params) (.plugin n p2ck params))
                  else
                    .ok (.missing ((cls.args.drop 1).filter
                      (fun a => ¬ ahasKey params a)))
  | _ => .error "complex configuration object must be a dict"

/-- The state threaded through `_build_items`: the still-pending entries
(`config`), the resolved entries (`experiment`) and the provenance records
(`self.factories`). -/
structure BuildState : Type where
  config : List (String × Val)
  experiment : List (String × Val)
  factories : List (String × Factory)

/-- Result of one full scan over the pending entries. -/
structure ScanResult : Type where
  exp : List (String × Val)
  fac : List (String × Factory)
  configured : List String
  unconfigured : List (String × List String)
  err : Option BuildErr

/-- One full pass of the `while config:` loop body (lines 196–267): entries
are visited in order; a constructed entry is added to `experiment` (and so is
visible to later entries of the same pass); a `ValueError` aborts the pass,
keeping the partial progress. -/
def scanOnce (reg : Registry) (cfgKeys : List String) (mode : Nat) :
    List (String × Val) → List (String × Val) → List (String × Factory) → ScanResult
  | [], exp, fac => ⟨exp, fac, [], [], none⟩
  | (k, v) :: rest, exp, fac =>
      match tryBuildOne reg cfgKeys exp mode v with
      | .error m => ⟨exp, fac, [], [], some (.valueError m)⟩
      | .ok (.built obj f) =>
          let r := scanOnce reg cfgKeys mode rest (aset exp k obj) (aset fac k f)
          ⟨r.exp, r.fac, k :: r.configured, r.unconfigured, r.err⟩
      | .ok (.missing ms) =>
          let r := scanOnce reg cfgKeys mode rest exp fac
          ⟨r.exp, r.fac, r.configured, (k, ms) :: r.unconfigured, r.err⟩

/-- `_build_items` (lines 183–274): repeated full scans; a pass that
constructs nothing while entries remain pending raises
`UnconfiguredItemsException`; a `ValueError` propagates at once.  The final
state (the in-place mutations of `config`, `experiment`, `self.factories`)
is returned alongside the outcome. -/
def build_items (reg : Registry) (mode : Nat) (s : BuildState) :
    BuildState × Option BuildErr :=
  match hc : s.config with
  | [] => (s, none)
  | _ :: _ =>
      let r := scanOnce reg (akeys s.config) mode s.config s.experiment s.factories
      match r.err with
      | some e => (⟨s.config, r.exp, r.fac⟩, some e)
      | none =>
          if hconf : r.configured = [] then
            (⟨s.config, r.exp, r.fac⟩, some (.unconfigured r.unconfigured))
          else
            build_items reg mode
              ⟨s.config.filter (fun kv => decide (kv.1 ∉ r.configured)), r.exp, r.fac⟩
  termination_by s.config.length
  decreasing_by
    have hne : r.configured ≠ [] := hconf
    have hsub : ∀ (entries exp : List (String × Val)) (fac : List (String × Factory)),
        ∀ k ∈ (scanOnce reg (akeys s.config) mode entries exp fac).configured,
          k ∈ akeys entries := by
      intro entries
      induction entries with
      | nil => intro exp fac k hk; simp [scanOnce] at hk
      | cons e rest ih =>
          intro exp fac k hk
          obtain ⟨ek, ev⟩ := e
          simp only [scanOnce] at hk
          cases htry : tryBuildOne reg (akeys s.config) exp mode ev with
          | error m => rw [htry] at hk; simp at hk
          | ok oc =>
              cases oc with
              | built obj f =>
                  rw [htry] at hk
                  simp only [List.mem_cons] at hk
                  rcases hk with h | h
                  · simp [akeys, h]
                  · have := ih (aset exp ek obj) (aset fac ek f) k h
                    simp [akeys] at this ⊢
                    exact Or.inr this
              | missing ms =>
                  rw [htry] at hk
                  have := ih exp fac k hk
                  simp [akeys] at this ⊢
                  exact Or.inr this
    obtain ⟨k0, hk0⟩ : ∃ k0, k0 ∈ r.configured := by
      cases hcc : r.configured with
      | nil => exact absurd hcc hne
      | cons a l => exact ⟨a, by simp [hcc]⟩
    have hk0mem : k0 ∈ akeys s.config :=
      hsub s.config s.experiment s.factories k0 hk0
    apply List.length_filter_lt_length_iff_exists.mpr
    simp only [akeys, List.mem_map] at hk0mem
    obtain ⟨kv, hkv, hfst⟩ := hk0mem
    refine ⟨kv, hkv, ?_⟩
    simp only [decide_eq_true_eq, Decidable.not_not, hfst]
    exact hk0

/-! ### `ExperimentConfig.__init__` -/

/-- Lines 132–140: the scalar pass of the classifier, building `experiment`
(with values environment-substituted) in declaration order. -/
def classifyScalars (env : List (String × String)) (raw : List (String × Val)) :
    List (String × Val) :=
  raw.foldl
    (fun acc kv =>
      if isScalar kv.2 then aset acc kv.1 (do_env_subs env kv.2) else acc) []

/-- Simple-list test of lines 144–145:
a list whose every element is a scalar. -/
def isSimpleList : Val → Bool
  | .vlist els => els.all isScalar
  | _ => false

/-- Lines 142–151: the simple-list pass, appended after the scalars. -/
def classifyLists (env : List (String × String)) (raw : List (String × Val))
    (acc0 : List (String × Val)) : List (String × Val) :=
  raw.foldl
    (fun acc kv =>
      match kv.2 with
      | .vlist els =>
          if els.all isScalar then
            aset acc kv.1 (.vlist (els.map (do_env_subs env))) else acc
      | _ => acc) acc0

/-- The resolved entries after classification (scalars then simple lists). -/
def classifyExp (env : List (String × String)) (raw : List (String × Val)) :
    List (String × Val) :=
  classifyLists env raw (classifyScalars env raw)

/-- The factories recorded during classification: `ParamFactory` entries
from the scalar pass, then the `list` factories from the simple-list pass. -/
def classifyFac (env : List (String × String)) (raw : List (String × Val)) :
    List (String × Factory) :=
  raw.foldl
    (fun acc kv =>
      match kv.2 with
      | .vlist els =>
          if els.all isScalar then
            aset acc kv.1 (Factory.listF (els.map (do_env_subs env))) else acc
      | _ => acc)
    (raw.foldl
      (fun acc kv =>
        if isScalar kv.2 then aset acc kv.1 (Factory.param (do_env_subs env kv.2))
        else acc) [])

/-- The `BuildState` reached at line 156, just before tier 0: the remaining
`config` is the raw input minus the classified keys
(`for k in experiment: del config[k]`). -/
def classifyState (env : List (String × String)) (raw : List (String × Val)) :
    BuildState :=
  let exp := classifyExp env raw
  ⟨raw.filter (fun kv => decide (¬ ahasKey exp kv.1)), exp, classifyFac env raw⟩

/-- `ExperimentConfig.__init__` for an in-memory mapping (lines 105–180),
with the final values of the local `config`/`experiment` dicts exposed:
classification, then tiers 0, 1, 2 of `_build_items`, where only
`UnconfiguredItemsException` is tolerated after tiers 0 and 1. -/
def expInitSt (reg : Registry) (raw : List (String × Val))
    (env : List (String × String)) :
    BuildState × Except BuildErr (List (String × Val) × List (String × Factory)) :=
  let s0 := classifyState env raw
  let (sA, eA) := build_items reg 0 s0
  match eA with
  | some (.valueError m) => (sA, .error (.valueError m))
  | _ =>
    let (sB, eB) := build_items reg 1 sA
    match eB with
    | some (.valueError m) => (sB, .error (.valueError m))
    | _ =>
      let (sC, eC) := build_items reg 2 sB
      match eC with
      | some e => (sC, .error e)
      | none => (sC, .ok (sC.experiment, sC.factories))

/-- The observable outcome of `ExperimentConfig.__init__`: the final
`experiment` mapping and the provenance records, or the propagated error. -/
def expInit (reg : Registry) (raw : List (String × Val))
    (env : List (String × String)) :
    Except BuildErr (List (String × Val) × List (String × Factory)) :=
  (expInitSt reg raw env).2

/-! ### Derived notions used by the verification -/

/-- The missing-parameter set reported for a pending entry
(`{arg for arg in spec.args[1:] if arg not in params}`). -/
def missingArgs (reg : Registry) (cfgKeys : List String) (exp : List (String × Val))
    (mode : Nat) (v : Val) : List String :=
  match tryBuildOne reg cfgKeys exp mode v with
  | .ok (.missing ms) => ms
  | _ => []

/-- Substring occurrence test on character lists (any position). -/
def hasSubstr (pat : List Char) : List Char → Bool
  | [] => pat.isPrefixOf []
  | c :: cs => pat.isPrefixOf (c :: cs) || hasSubstr pat cs

/-- The non-`_name` fields of a descriptor (`named_params`). -/
def namedOf (fields : List (String × Val)) : List (String × Val) :=
  fields.filter (fun pkv => pkv.1 ≠ "_name")

/-- A well-formed entry of the raw configuration is a scalar or a simple
list; `wfDescB` below covers descriptors. -/
def isSimpleEntry (v : Val) : Bool :=
  isScalar v || isSimpleList v

/-- Whether constructor argument `arg` of a descriptor is guaranteed to be
fillable in tier 2 once every key it references is resolved: a literal
override, the reserved self-reference, an alias whose keys all name
configuration entries, or an unaliased name that is a configuration key or
has a constructor default. -/
def argFills (U : List String) (cls : ClassSpec)
    (lit named : List (String × Val)) (arg : String) : Bool :=
  ahasKey lit arg || arg = "experiment_config" ||
  (match alookup named arg with
   | some (.vstr a) => U.contains a
   | some (.vlist ns) =>
       ns.all (fun e => match e with | .vstr a => U.contains a | _ => false)
   | some _ => false
   | none => U.contains arg || ahasKey (defaultParamsOf cls) arg)

/-- The configuration keys a constructor argument waits for: the alias keys
(also for defaultable parameters — an alias blocks the default branch), or
the argument's own name when it is unaliased and has no default. -/
def argRefs (cls : ClassSpec) (lit named : List (String × Val))
    (arg : String) : List String :=
  if ahasKey lit arg then []
  else if arg = "experiment_config" then []
  else match alookup named arg with
    | some (.vstr a) => [a]
    | some (.vlist ns) =>
        ns.filterMap (fun e => match e with | .vstr a => some a | _ => none)
    | some _ => []
    | none => if ahasKey (defaultParamsOf cls) arg then [] else [arg]

/-- A well-formed descriptor relative to the set `U` of top-level keys:
typed and registered, nonempty nodup argument list, valid parameter shapes,
and every constructor argument fillable in the sense of `argFills`. -/
def wfDescB (reg : Registry) (U : List String) (v : Val) : Bool :=
  match v with
  | .vdict fields =>
      match alookup fields "_name" with
      | some (.vstr n) =>
          match alookup reg n with
          | some cls =>
              match validateAndLiterals fields with
              | .ok lit =>
                  !cls.args.isEmpty &&
                  decide ((cls.args.drop 1).Nodup) &&
                  (cls.args.drop 1).all (argFills U cls lit (namedOf fields))
              | .error _ => false
          | none => false
      | _ => false
  | _ => false

/-- A well-formed raw entry: scalar, simple list, or well-formed descriptor. -/
def wfEntryB (reg : Registry) (U : List String) (v : Val) : Bool :=
  isSimpleEntry v || wfDescB reg U v

/-- All configuration keys referenced by a descriptor (see `argRefs`). -/
def descRefs (reg : Registry) (v : Val) : List String :=
  match v with
  | .vdict fields =>
      match alookup fields "_name" with
      | some (.vstr n) =>
          match alookup reg n with
          | some cls =>
              match validateAndLiterals fields with
              | .ok lit =>
                  (cls.args.drop 1).flatMap (argRefs cls lit (namedOf fields))
              | .error _ => []
          | none => []
      | _ => []
  | _ => []

/-- Acyclicity, phrased as a ranking: every reference from a pending
descriptor to another pending key strictly decreases the rank. -/
def RankOk (reg : Registry) (rank : String → Nat) (cfg : List (String × Val)) : Prop :=
  ∀ kv ∈ cfg, ∀ r ∈ descRefs reg kv.2, r ∈ akeys cfg → rank r < rank kv.1

/-- The dependency edges in the sense of the specification's order-independence
property: references of *required non-defaultable* constructor parameters
that point at top-level configuration keys. -/
def claimDeps (reg : Registry) (raw : List (String × Val)) : List (String × String) :=
  raw.flatMap (fun kv =>
    match kv.2 with
    | .vdict fields =>
        (match alookup fields "_name" with
         | some (.vstr n) =>
             match alookup reg n with
             | some cls =>
                 match validateAndLiterals fields with
                 | .ok lit =>
                     (cls.args.drop 1).flatMap (fun arg =>
                       if ahasKey (defaultParamsOf cls) arg then []
                       else ((argRefs cls lit (namedOf fields) arg).filter
                         (fun rk => (akeys raw).contains rk)).map
                           (fun rk => (kv.1, rk)))
                 | .error _ => []
             | none => []
         | _ => [])
    | _ => [])

/-- Lookup-preserving extension of the resolved mapping. -/
def LookupExt (e1 e2 : List (String × Val)) : Prop :=
  ∀ k w, alookup e1 k = some w → alookup e2 k = some w

/-- The scan a state's pass performs. -/
def passResult (reg : Registry) (mode : Nat) (s : BuildState) : ScanResult :=
  scanOnce reg (akeys s.config) mode s.config s.experiment s.factories

/-- The state after a completed pass: configured entries deleted from
`config`, the grown `experiment` and `factories` kept. -/
def passNext (reg : Registry) (mode : Nat) (s : BuildState) : BuildState :=
  ⟨s.config.filter (fun kv => decide (kv.1 ∉ (passResult reg mode s).configured)),
   (passResult reg mode s).exp, (passResult reg mode s).fac⟩

/-- One completed (exception-free) pass of `_build_items`, at any tier. -/
def StepPass (reg : Registry) (s s' : BuildState) : Prop :=
  ∃ mode, s.config ≠ [] ∧ (passResult reg mode s).err = none ∧
    s' = passNext reg mode s

/-- All states a resolution run visits from a starting state, at pass
granularity. -/
def Reach (reg : Registry) : BuildState → BuildState → Prop :=
  Relation.ReflTransGen (StepPass reg)

/-- The structural invariant of a resolution state over the top-level key
set `U`: resolved and pending keys are disjoint, duplicate-free, and
together cover exactly `U`. -/
def GoodState (U : List String) (s : BuildState) : Prop :=
  (∀ key, key ∈ akeys s.experiment → key ∉ akeys s.config) ∧
  (akeys s.config).Nodup ∧
  (akeys s.experiment).Nodup ∧
  (∀ key, (key ∈ akeys s.experiment ∨ key ∈ akeys s.config) ↔ key ∈ U)

/-! ### A small heap model for the caller-frame property -/

/-- A store of Python dict objects, addressed by allocation index. -/
abbrev Store : Type := List (List (String × Val))

/-- Dereference (a missing address reads as the empty dict). -/
def getRef (st : Store) (r : Nat) : List (String × Val) :=
  st.getD r []

/-- In-place update of one dict object. -/
def setRef (st : Store) (r : Nat) (d : List (String × Val)) : Store :=
  st.set r d

/-- `ExperimentConfig.__init__` with the Python aliasing made explicit:
line 128 allocates a fresh dict holding a copy of the caller's entries
(`config = dict(experiment)`), line 134 allocates the fresh local
`experiment` dict, and every later mutation (classification writes,
`del config[k]`, resolution writes) targets only those two fresh objects. -/
def expInit_mut (reg : Registry) (st : Store) (callerRef : Nat)
    (env : List (String × String)) :
    Store × Except BuildErr (List (String × Val) × List (String × Factory)) :=
  let callerDict := getRef st callerRef
  let configRef := st.length
  let st1 := st ++ [callerDict]
  let expRef := st1.length
  let st2 := st1 ++ [[]]
  let (sF, out) := expInitSt reg callerDict env
  (setRef (setRef st2 configRef sF.config) expRef sF.experiment, out)

/-! ### Concrete registry entries and configurations used as test inputs -/

/-- A registered class `Box(self, value)`. -/
def Box : ClassSpec := ⟨["self", "value"], []⟩

/-- A registered class `WithEC(self, experiment_config)`. -/
def WithEC : ClassSpec := ⟨["self", "experiment_config"], []⟩

/-- A registered class `Pair(self, left, right=0)`. -/
def Pair : ClassSpec := ⟨["self", "left", "right"], [.vint 0]⟩

/-- A registry with the three test classes. -/
def regT : Registry := [("Box", Box), ("WithEC", WithEC), ("Pair", Pair)]

/-! ## Association-list lemmas -/

theorem alookup_eq_none {α : Type} (l : List (String × α)) (k : String) :
    alookup l k = none ↔ k ∉ akeys l := by
  induction l with
  | nil => simp [alookup, akeys]
  | cons kv rest ih =>
      obtain ⟨k0, v0⟩ := kv
      by_cases h : k0 = k
      · subst h; simp [alookup, akeys]
      · simp [alookup, akeys, h, ih, Ne.symm h]

theorem ahasKey_iff {α : Type} (l : List (String × α)) (k : String) :
    ahasKey l k = true ↔ k ∈ akeys l := by
  rw [ahasKey, Option.isSome_iff_ne_none]
  constructor
  · intro h
    by_contra hmem
    exact h ((alookup_eq_none l k).mpr hmem)
  · intro h hn
    exact ((alookup_eq_none l k).mp hn) h

theorem alookup_isSome_of_mem {α : Type} {l : List (String × α)} {k : String}
    {v : α} (h : (k, v) ∈ l) : (alookup l k).isSome := by
  induction l with
  | nil => simp at h
  | cons kv rest ih =>
      obtain ⟨k0, v0⟩ := kv
      rcases List.mem_cons.mp h with he | hr
      · injection he with h1 h2
        simp [alookup, h1.symm]
      · simp only [alookup]
        by_cases hk : k0 = k
        · simp [hk]
        · simp [hk, ih hr]

theorem alookup_aset_self {α : Type} (l : List (String × α)) (k : String) (v : α) :
    alookup (aset l k v) k = some v := by
  induction l with
  | nil => simp [aset, alookup]
  | cons kv rest ih =>
      obtain ⟨k0, v0⟩ := kv
      by_cases h : k0 = k
      · simp [aset, alookup, h]
      · simp [aset, alookup, h, ih]

theorem alookup_aset_ne {α : Type} (l : List (String × α)) (k k' : String) (v : α)
    (h : k' ≠ k) : alookup (aset l k v) k' = alookup l k' := by
  induction l with
  | nil => simp [aset, alookup, Ne.symm h]
  | cons kv rest ih =>
      obtain ⟨k0, v0⟩ := kv
      by_cases h0 : k0 = k
      · subst h0
        simp [aset, alookup, Ne.symm h]
      · simp only [aset, if_neg h0]
        by_cases h1 : k0 = k'
        · simp [alookup, h1]
        · simp [alookup, h1, ih]

theorem akeys_aset_mem {α : Type} (l : List (String × α)) (k : String) (v : α)
    (h : k ∈ akeys l) : akeys (aset l k v) = akeys l := by
  induction l with
  | nil => simp [akeys] at h
  | cons kv rest ih =>
      obtain ⟨k0, v0⟩ := kv
      by_cases h0 : k0 = k
      · simp [aset, akeys, h0]
      · have : k ∈ akeys rest := by
          simp [akeys] at h
          rcases h with h | h
          · exact absurd h.symm h0
          · simpa [akeys] using h
        simp only [aset, if_neg h0, akeys, List.map_cons, List.cons.injEq, true_and]
        exact ih this

theorem akeys_aset_not_mem {α : Type} (l : List (String × α)) (k : String) (v : α)
    (h : k ∉ akeys l) : akeys (aset l k v) = akeys l ++ [k] := by
  induction l with
  | nil => simp [aset, akeys]
  | cons kv rest ih =>
      obtain ⟨k0, v0⟩ := kv
      by_cases h0 : k0 = k
      · exact absurd (by simp [akeys, h0]) h
      · have : k ∉ akeys rest := fun hm => h (by simp [akeys]; right; simpa [akeys] using hm)
        simp only [aset, if_neg h0, akeys, List.map_cons, List.cons_append,
          List.cons.injEq, true_and]
        exact ih this

theorem mem_akeys_aset {α : Type} (l : List (String × α)) (k k' : String) (v : α) :
    k' ∈ akeys (aset l k v) ↔ k' ∈ akeys l ∨ k' = k := by
  by_cases h : k ∈ akeys l
  · rw [akeys_aset_mem l k v h]
    constructor
    · exact Or.inl
    · rintro (hm | rfl)
      · exact hm
      · exact h
  · rw [akeys_aset_not_mem l k v h]
    simp

theorem akeys_aset_nodup {α : Type} (l : List (String × α)) (k : String) (v : α)
    (h : (akeys l).Nodup) : (akeys (aset l k v)).Nodup := by
  by_cases hm : k ∈ akeys l
  · rwa [akeys_aset_mem l k v hm]
  · rw [akeys_aset_not_mem l k v hm]
    rw [List.nodup_append]
    refine ⟨h, List.nodup_singleton k, ?_⟩
    intro a ha hb
    simp at hb
    subst hb
    exact hm ha

/-! ## Environment substitution -/

theorem replaceCore_nil (pat rep : List Char) (hp : pat ≠ []) :
    replaceCore pat rep hp [] = [] := by
  simp [replaceCore]

theorem replaceCore_self (pat rep : List Char) (hp : pat ≠ []) :
    replaceCore pat rep hp pat = rep := by
  cases pat with
  | nil => exact absurd rfl hp
  | cons c cs =>
      rw [replaceCore]
      rw [if_pos (by rw [ List.isPrefixOf_iff_prefix])]
      rw [List.drop_length, replaceCore_nil, List.append_nil]

theorem replaceCore_no_occur (pat rep : List Char) (hp : pat ≠ []) :
    ∀ s : List Char, hasSubstr pat s = false → replaceCore pat rep hp s = s := by
  intro s
  induction s with
  | nil => intro _; exact replaceCore_nil pat rep hp
  | cons c cs ih =>
      intro h
      rw [hasSubstr, Bool.or_eq_false_iff] at h
      rw [replaceCore, if_neg (by simp [h.1]), ih h.2]

theorem pyReplace_self (K a : String) (h : K ≠ "") : pyReplace K K a = a := by
  have ht : K.toList ≠ [] := fun hc => h (String.ext hc)
  rw [pyReplace, dif_neg ht, replaceCore_self]
  rfl

theorem pyReplace_no_occur (s pat rep : String)
    (h : hasSubstr pat.toList s.toList = false) : pyReplace s pat rep = s := by
  have hnilpat : ∀ l : List Char, hasSubstr [] l = true := by
    intro l
    cases l <;> simp [hasSubstr, List.isPrefixOf]
  have ht : pat.toList ≠ [] := by
    intro hc
    rw [hc, hnilpat] at h
    cases h
  rw [pyReplace, dif_neg ht, replaceCore_no_occur _ _ _ _ h]
  rfl

theorem sortKeysDesc_two (k K b a : String) (h : k.length < K.length) :
    sortKeysDesc [(k, b), (K, a)] = [(K, a), (k, b)] := by
  simp [sortKeysDesc, insertByLen, h]

theorem sortKeysDesc_stable_two (k1 k2 a b : String) (h : k1.length = k2.length) :
    sortKeysDesc [(k1, a), (k2, b)] = [(k1, a), (k2, b)] := by
  simp [sortKeysDesc, insertByLen, h]

/-- **C7.** Environment substitution on a scalar applies the substitution
keys longest first, replacing every occurrence of each key once per key in
that order (one non-recursive pass per key, `do_env_subs` being exactly the
fold of Python `str.replace` over the length-sorted keys); a key that is a
proper prefix of a longer key is never chosen where the longer key matches
(the longer key is consumed first, and where the shorter key has no
occurrence in the replacement the result is untouched by it); the sort is
stable, so equal-length keys are applied in declaration order; every
non-string scalar is returned unchanged. -/
theorem C7_env_subs :
    (∀ (env : List (String × String)) (v : Val), (∀ s, v ≠ Val.vstr s) →
        do_env_subs env v = v) ∧
    (∀ (env : List (String × String)) (s : String),
        do_env_subs env (Val.vstr s) =
          Val.vstr ((sortKeysDesc env).foldl applyOneKey s)) ∧
    (∀ K k a b : String, k ≠ K → k.toList <+: K.toList →
        hasSubstr k.toList a.toList = false →
        sortKeysDesc [(k, b), (K, a)] = [(K, a), (k, b)] ∧
        do_env_subs [(k, b), (K, a)] (Val.vstr K) = Val.vstr a) ∧
    (∀ k1 k2 a b : String, k1.length = k2.length →
        sortKeysDesc [(k1, a), (k2, b)] = [(k1, a), (k2, b)] ∧
        ∀ s : String, do_env_subs [(k1, a), (k2, b)] (Val.vstr s) =
          Val.vstr (applyOneKey (applyOneKey s (k1, a)) (k2, b))) := by
  refine ⟨?_, ?_, ?_, ?_⟩
  · intro env v hv
    cases v with
    | vstr s => exact absurd rfl (hv s)
    | vnull => rfl
    | vbool b => rfl
    | vint n => rfl
    | vlist xs => rfl
    | vdict fs => rfl
    | vobj c ps => rfl
    | vself => rfl
  · intro env s; rfl
  · intro K k a b hne hpre hocc
    have hlen : k.length ≤ K.length := hpre.length_le
    have hlt : k.length < K.length := by
      rcases Nat.lt_or_ge k.length K.length with hc | hc
      · exact hc
      · exfalso
        have he : k.toList = K.toList :=
          hpre.eq_of_length (Nat.le_antisymm hpre.length_le hc)
        exact hne (String.ext he)
    have hKne : K ≠ "" := by
      intro hK
      subst hK
      have : k.toList = [] := List.prefix_nil.mp hpre
      exact hne (String.ext this)
    refine ⟨sortKeysDesc_two k K b a hlt, ?_⟩
    rw [do_env_subs, sortKeysDesc_two k K b a hlt]
    simp only [List.foldl_cons, List.foldl_nil, applyOneKey]
    rw [pyReplace_self K a hKne, pyReplace_no_occur a k b hocc]
  · intro k1 k2 a b h
    refine ⟨sortKeysDesc_stable_two k1 k2 a b h, ?_⟩
    intro s
    rw [do_env_subs, sortKeysDesc_stable_two k1 k2 a b h]
    rfl

/-- Witness for C7: with keys `A` (shorter, a prefix) and `AB` (longer),
the longer key is sorted first and wins at the match site; with the
equal-length keys `aa` then `bb`, declaration order is kept, so `aa`
becomes `bb` and then `cc`. -/
theorem C7_env_subs_witness :
    (sortKeysDesc [("A", "z"), ("AB", "xy")] = [("AB", "xy"), ("A", "z")] ∧
     do_env_subs [("A", "z"), ("AB", "xy")] (Val.vstr "AB") = Val.vstr "xy") ∧
    sortKeysDesc [("aa", "bb"), ("bb", "cc")] = [("aa", "bb"), ("bb", "cc")] ∧
    do_env_subs [("aa", "bb"), ("bb", "cc")] (Val.vstr "aa") = Val.vstr "cc" :=
  ⟨C7_env_subs.2.2.1 "AB" "A" "xy" "z" (by decide) (by decide) (by decide),
   (C7_env_subs.2.2.2 "aa" "bb" "bb" "cc" rfl).1,
   by
     rw [(C7_env_subs.2.2.2 "aa" "bb" "bb" "cc" rfl).2 "aa"]
     simp only [applyOneKey]
     rw [pyReplace_self "aa" "bb" (by decide), pyReplace_self "bb" "cc" (by decide)]⟩

/-! ## The argument loop: `params` characterization -/

theorem length_eq_akeys_length {α : Type} (l : List (String × α)) :
    l.length = (akeys l).length := by
  simp [akeys]

theorem alookup_foldl_buildParamsStep (cfgKeys : List String)
    (exp : List (String × Val)) (mode : Nat) (lit named defp : List (String × Val))
    (arg : String) :
    ∀ (tail : List String) (acc : List (String × Val) × List (String × Option Val)),
      (alookup acc.1 arg = none ∨
        alookup acc.1 arg = fillArg cfgKeys exp mode lit named defp arg) →
      alookup (tail.foldl (buildParamsStep cfgKeys exp mode lit named defp) acc).1 arg =
        if arg ∈ tail then fillArg cfgKeys exp mode lit named defp arg
        else alookup acc.1 arg := by
  intro tail
  induction tail with
  | nil => intro acc hacc; simp
  | cons a rest ih =>
      intro acc hacc
      have hstep : alookup (buildParamsStep cfgKeys exp mode lit named defp acc a).1 arg =
          if a = arg then fillArg cfgKeys exp mode lit named defp arg
          else alookup acc.1 arg := by
        by_cases ha : a = arg
        · subst ha
          rw [if_pos rfl]
          simp only [buildParamsStep]
          cases hf : fillArg cfgKeys exp mode lit named defp a with
          | some v => simp [hf, alookup_aset_self]
          | none =>
              rcases hacc with h | h
              · simp only [hf]
                rw [h]
              · simp only [hf]
                rw [h, hf]
        · rw [if_neg ha]
          simp only [buildParamsStep]
          cases hf : fillArg cfgKeys exp mode lit named defp a with
          | some v =>
              simp only [hf]
              exact alookup_aset_ne acc.1 a arg v (fun he => ha he.symm)
          | none => simp [hf]
      have hpres : alookup (buildParamsStep cfgKeys exp mode lit named defp acc a).1 arg = none ∨
          alookup (buildParamsStep cfgKeys exp mode lit named defp acc a).1 arg =
            fillArg cfgKeys exp mode lit named defp arg := by
        rw [hstep]
        by_cases ha : a = arg
        · simp [ha]
        · simp only [if_neg ha]
          exact hacc
      rw [List.foldl_cons, ih _ hpres, hstep]
      by_cases hr : arg ∈ rest
      · simp [hr]
      · by_cases ha : a = arg
        · subst ha
          simp [hr]
        · have harg : arg ∉ a :: rest := by
            intro hm
            rcases List.mem_cons.mp hm with hm | hm
            · exact ha hm.symm
            · exact hr hm
          rw [if_neg hr, if_neg ha, if_neg harg]

theorem alookup_buildParams (cfgKeys : List String) (exp : List (String × Val))
    (mode : Nat) (lit named defp : List (String × Val)) (argsTail : List String)
    (arg : String) :
    alookup (buildParams cfgKeys exp mode lit named defp argsTail).1 arg =
      if arg ∈ argsTail then fillArg cfgKeys exp mode lit named defp arg else none := by
  rw [buildParams, alookup_foldl_buildParamsStep cfgKeys exp mode lit named defp arg argsTail
    ([], []) (Or.inl rfl)]
  rfl

theorem akeys_buildParams_mem (cfgKeys : List String) (exp : List (String × Val))
    (mode : Nat) (lit named defp : List (String × Val)) (argsTail : List String)
    (k : String) (h : k ∈ akeys (buildParams cfgKeys exp mode lit named defp argsTail).1) :
    k ∈ argsTail ∧ (fillArg cfgKeys exp mode lit named defp k).isSome := by
  have hk : (alookup (buildParams cfgKeys exp mode lit named defp argsTail).1 k).isSome := by
    rw [← ahasKey] at *
    exact (ahasKey_iff _ _).mpr h
  rw [alookup_buildParams] at hk
  by_cases hm : k ∈ argsTail
  · rw [if_pos hm] at hk
    exact ⟨hm, hk⟩
  · rw [if_neg hm] at hk
    simp at hk

theorem akeys_buildParams_nodup (cfgKeys : List String) (exp : List (String × Val))
    (mode : Nat) (lit named defp : List (String × Val)) (argsTail : List String) :
    (akeys (buildParams cfgKeys exp mode lit named defp argsTail).1).Nodup := by
  rw [buildParams]
  suffices h : ∀ (tail : List String) (acc : List (String × Val) × List (String × Option Val)),
      (akeys acc.1).Nodup →
      (akeys (tail.foldl (buildParamsStep cfgKeys exp mode lit named defp) acc).1).Nodup by
    exact h argsTail ([], []) (by simp [akeys])
  intro tail
  induction tail with
  | nil => intro acc hacc; simpa using hacc
  | cons a rest ih =>
      intro acc hacc
      rw [List.foldl_cons]
      apply ih
      simp only [buildParamsStep]
      cases hf : fillArg cfgKeys exp mode lit named defp a with
      | some v => exact akeys_aset_nodup _ _ _ hacc
      | none => exact hacc

theorem buildParams_length_lt (cfgKeys : List String) (exp : List (String × Val))
    (mode : Nat) (lit named defp : List (String × Val)) (argsTail : List String)
    (p : String) (hp : p ∈ argsTail)
    (hnone : fillArg cfgKeys exp mode lit named defp p = none) :
    (buildParams cfgKeys exp mode lit named defp argsTail).1.length < argsTail.length := by
  set params := (buildParams cfgKeys exp mode lit named defp argsTail).1 with hparams
  have h1 : params.length = (akeys params).length := length_eq_akeys_length params
  have hsub : akeys params ⊆ argsTail.filter
      (fun a => (fillArg cfgKeys exp mode lit named defp a).isSome) := by
    intro k hk
    obtain ⟨hm, hs⟩ := akeys_buildParams_mem cfgKeys exp mode lit named defp argsTail k hk
    exact List.mem_filter.mpr ⟨hm, hs⟩
  have hnd : (akeys params).Nodup :=
    akeys_buildParams_nodup cfgKeys exp mode lit named defp argsTail
  have h2 : (akeys params).length ≤ (argsTail.filter
      (fun a => (fillArg cfgKeys exp mode lit named defp a).isSome)).length := by
    calc (akeys params).length = (akeys params).toFinset.card := by
            rw [List.toFinset_card_of_nodup hnd]
      _ ≤ (argsTail.filter _).toFinset.card := by
            apply Finset.card_le_card
            intro x hx
            rw [List.mem_toFinset] at hx ⊢
            exact hsub hx
      _ ≤ (argsTail.filter _).length := (argsTail.filter _).toFinset_card_le
  have h3 : (argsTail.filter
      (fun a => (fillArg cfgKeys exp mode lit named defp a).isSome)).length <
      argsTail.length := by
    apply List.length_filter_lt_length_iff_exists.mpr
    exact ⟨p, hp, by simp [hnone]⟩
  omega

theorem aset_length {α : Type} (l : List (String × α)) (k : String) (v : α) :
    (aset l k v).length = if k ∈ akeys l then l.length else l.length + 1 := by
  by_cases h : k ∈ akeys l
  · rw [if_pos h, length_eq_akeys_length, length_eq_akeys_length l,
      akeys_aset_mem l k v h]
  · rw [if_neg h, length_eq_akeys_length, length_eq_akeys_length l,
      akeys_aset_not_mem l k v h]
    simp

theorem buildParams_length_all (cfgKeys : List String) (exp : List (String × Val))
    (mode : Nat) (lit named defp : List (String × Val)) (argsTail : List String)
    (hnd : argsTail.Nodup)
    (hall : ∀ a ∈ argsTail, (fillArg cfgKeys exp mode lit named defp a).isSome) :
    (buildParams cfgKeys exp mode lit named defp argsTail).1.length = argsTail.length := by
  rw [buildParams]
  suffices h : ∀ (tail : List String) (acc : List (String × Val) × List (String × Option Val)),
      tail.Nodup → (∀ a ∈ tail, (fillArg cfgKeys exp mode lit named defp a).isSome) →
      (∀ a ∈ tail, a ∉ akeys acc.1) →
      (tail.foldl (buildParamsStep cfgKeys exp mode lit named defp) acc).1.length =
        acc.1.length + tail.length by
    simpa using h argsTail ([], []) hnd hall (by simp [akeys])
  intro tail
  induction tail with
  | nil => intro acc _ _ _; simp
  | cons a rest ih =>
      intro acc hnd2 hall2 hfresh
      rw [List.foldl_cons]
      have hfa : (fillArg cfgKeys exp mode lit named defp a).isSome :=
        hall2 a (by simp)
      obtain ⟨v, hv⟩ := Option.isSome_iff_exists.mp hfa
      have hstep1 : (buildParamsStep cfgKeys exp mode lit named defp acc a).1 =
          aset acc.1 a v := by
        simp [buildParamsStep, hv]
      have hkeys : akeys (buildParamsStep cfgKeys exp mode lit named defp acc a).1 =
          akeys acc.1 ++ [a] := by
        rw [hstep1]
        exact akeys_aset_not_mem _ _ _ (hfresh a (by simp))
      rw [ih _ (List.Nodup.of_cons hnd2)
        (fun x hx => hall2 x (List.mem_cons_of_mem a hx))
        (fun x hx => by
          rw [hkeys]
          intro hmem
          rcases List.mem_append.mp hmem with hm | hm
          · exact hfresh x (List.mem_cons_of_mem a hx) hm
          · simp at hm
            subst hm
            exact (List.nodup_cons.mp hnd2).1 hx)]
      rw [hstep1, aset_length, if_neg (hfresh a (by simp))]
      simp [Nat.add_assoc, Nat.add_comm 1]

/-! ## `fillArg` case analysis -/

theorem fillArg_lit (cfgKeys : List String) (exp : List (String × Val)) (mode : Nat)
    (lit named defp : List (String × Val)) (arg : String) (w : Val)
    (h : alookup lit arg = some w) :
    fillArg cfgKeys exp mode lit named defp arg = some w := by
  simp [fillArg, h]

theorem fillArg_alias_hit (cfgKeys : List String) (exp : List (String × Val)) (mode : Nat)
    (lit named defp : List (String × Val)) (arg a : String) (w : Val)
    (hlit : alookup lit arg = none) (hnamed : alookup named arg = some (.vstr a))
    (hexp : alookup exp a = some w) :
    fillArg cfgKeys exp mode lit named defp arg = some w := by
  simp [fillArg, hlit, hnamed, hexp]

theorem fillArg_alias_miss (cfgKeys : List String) (exp : List (String × Val)) (mode : Nat)
    (lit named defp : List (String × Val)) (arg a : String)
    (hlit : alookup lit arg = none) (hnamed : alookup named arg = some (.vstr a))
    (hexp : alookup exp a = none) :
    fillArg cfgKeys exp mode lit named defp arg =
      if arg = "experiment_config" then some Val.vself else none := by
  simp [fillArg, hlit, hnamed, hexp]

theorem fillArg_listAlias_hit (cfgKeys : List String) (exp : List (String × Val)) (mode : Nat)
    (lit named defp : List (String × Val)) (arg : String) (ns vs : List Val)
    (hlit : alookup lit arg = none) (hnamed : alookup named arg = some (.vlist ns))
    (hall : lookupAll exp ns = some vs) :
    fillArg cfgKeys exp mode lit named defp arg = some (.vlist vs) := by
  simp [fillArg, hlit, hnamed, hall]

theorem fillArg_listAlias_miss (cfgKeys : List String) (exp : List (String × Val)) (mode : Nat)
    (lit named defp : List (String × Val)) (arg : String) (ns : List Val)
    (hlit : alookup lit arg = none) (hnamed : alookup named arg = some (.vlist ns))
    (hall : lookupAll exp ns = none) :
    fillArg cfgKeys exp mode lit named defp arg =
      if arg = "experiment_config" then some Val.vself else none := by
  simp [fillArg, hlit, hnamed, hall]

theorem fillArg_direct (cfgKeys : List String) (exp : List (String × Val)) (mode : Nat)
    (lit named defp : List (String × Val)) (arg : String) (w : Val)
    (hlit : alookup lit arg = none) (hnamed : alookup named arg = none)
    (hexp : alookup exp arg = some w) :
    fillArg cfgKeys exp mode lit named defp arg = some w := by
  simp [fillArg, hlit, hnamed, hexp]

theorem fillArg_default (cfgKeys : List String) (exp : List (String × Val)) (mode : Nat)
    (lit named defp : List (String × Val)) (arg : String) (d : Val)
    (hlit : alookup lit arg = none) (hnamed : alookup named arg = none)
    (hexp : alookup exp arg = none) (hdef : alookup defp arg = some d)
    (hmode : (mode = 1 ∧ arg ∉ cfgKeys) ∨ mode = 2) :
    fillArg cfgKeys exp mode lit named defp arg = some d := by
  rcases hmode with ⟨h1, h2⟩ | h2
  · subst h1
    simp [fillArg, hlit, hnamed, hexp, hdef, h2]
  · subst h2
    simp [fillArg, hlit, hnamed, hexp, hdef]

theorem fillArg_no_source (cfgKeys : List String) (exp : List (String × Val)) (mode : Nat)
    (lit named defp : List (String × Val)) (arg : String)
    (hlit : alookup lit arg = none) (hnamed : alookup named arg = none)
    (hexp : alookup exp arg = none)
    (hno : ¬ ((mode = 1 ∧ ¬ cfgKeys.contains arg ∧ (alookup defp arg).isSome) ∨
        (mode = 2 ∧ (alookup defp arg).isSome))) :
    fillArg cfgKeys exp mode lit named defp arg =
      if arg = "experiment_config" then some Val.vself else none := by
  have hA : ¬ (mode = 1 ∧ ¬ cfgKeys.contains arg ∧ (alookup defp arg).isSome) :=
    fun h => hno (Or.inl h)
  have hB : ¬ (mode = 2 ∧ (alookup defp arg).isSome) := fun h => hno (Or.inr h)
  simp only [fillArg, hlit, hnamed, hexp]
  rw [if_neg hA, if_neg hB]

/-! ## Per-descriptor outcome lemmas -/

theorem tryBuildOne_eq (reg : Registry) (cfgKeys : List String)
    (exp : List (String × Val)) (mode : Nat) (fields : List (String × Val))
    (n : String) (cls : ClassSpec) (lit : List (String × Val))
    (hname : alookup fields "_name" = some (.vstr n))
    (hreg : alookup reg n = some cls)
    (hval : validateAndLiterals fields = .ok lit) :
    tryBuildOne reg cfgKeys exp mode (.vdict fields) =
      (if ((buildParams cfgKeys exp mode lit (namedOf fields) (defaultParamsOf cls)
              (cls.args.drop 1)).1.length : Int) = (cls.args.length : Int) - 1 then
        .ok (.built
          (.vobj n (buildParams cfgKeys exp mode lit (namedOf fields)
            (defaultParamsOf cls) (cls.args.drop 1)).1)
          (.plugin n
            (buildParams cfgKeys exp mode lit (namedOf fields)
              (defaultParamsOf cls) (cls.args.drop 1)).2
            (buildParams cfgKeys exp mode lit (namedOf fields)
              (defaultParamsOf cls) (cls.args.drop 1)).1))
      else
        .ok (.missing ((cls.args.drop 1).filter
          (fun a => ¬ ahasKey (buildParams cfgKeys exp mode lit (namedOf fields)
            (defaultParamsOf cls) (cls.args.drop 1)).1 a)))) := by
  simp only [tryBuildOne, hname, hreg, hval, namedOf]

theorem tryBuildOne_missing_of_none (reg : Registry) (cfgKeys : List String)
    (exp : List (String × Val)) (mode : Nat) (fields : List (String × Val))
    (n : String) (cls : ClassSpec) (lit : List (String × Val)) (p : String)
    (hname : alookup fields "_name" = some (.vstr n))
    (hreg : alookup reg n = some cls)
    (hval : validateAndLiterals fields = .ok lit)
    (hp : p ∈ cls.args.drop 1)
    (hnone : fillArg cfgKeys exp mode lit (namedOf fields)
      (defaultParamsOf cls) p = none) :
    ∃ ms, tryBuildOne reg cfgKeys exp mode (.vdict fields) = .ok (.missing ms) ∧
      p ∈ ms := by
  rw [tryBuildOne_eq reg cfgKeys exp mode fields n cls lit hname hreg hval]
  have hlt := buildParams_length_lt cfgKeys exp mode lit (namedOf fields)
    (defaultParamsOf cls) (cls.args.drop 1) p hp hnone
  have hlen : (cls.args.drop 1).length = cls.args.length - 1 := by
    simp [List.length_drop]
  have hargs1 : 1 ≤ cls.args.length := by
    cases hc : cls.args with
    | nil => rw [hc] at hp; simp at hp
    | cons a l => simp [hc]
  have hne : ((buildParams cfgKeys exp mode lit (namedOf fields) (defaultParamsOf cls)
      (cls.args.drop 1)).1.length : Int) ≠ (cls.args.length : Int) - 1 := by
    have : (buildParams cfgKeys exp mode lit (namedOf fields) (defaultParamsOf cls)
        (cls.args.drop 1)).1.length < cls.args.length - 1 := by omega
    omega
  rw [if_neg hne]
  refine ⟨_, rfl, ?_⟩
  apply List.mem_filter.mpr
  refine ⟨hp, ?_⟩
  have hhk : ahasKey (buildParams cfgKeys exp mode lit (namedOf fields)
      (defaultParamsOf cls) (cls.args.drop 1)).1 p = false := by
    rw [ahasKey, alookup_buildParams, if_pos hp, hnone]
    rfl
  have hhk2 := hhk
  rw [List.drop_one] at hhk2
  simp [hhk, hhk2]

/-- **C1.** A constructor default on parameter `p` never masks a pending
top-level entry named `p`: with `p` a not-yet-resolved configuration key
(and no other source for `p`), the tier-0 and tier-1 fills of `p` produce
nothing — so the descriptor stays pending, `p` among its missing
parameters — while the tier-2 fill takes the constructor default as long
as the entry for `p` is still unresolved. -/
theorem C1_default_vs_pending (cfgKeys : List String)
    (exp lit named defp : List (String × Val)) (p : String) (dflt : Val)
    (hlit : alookup lit p = none)
    (hec : p ≠ "experiment_config")
    (hnamed : alookup named p = none)
    (hexp : alookup exp p = none)
    (hcfg : p ∈ cfgKeys)
    (hdef : alookup defp p = some dflt) :
    fillArg cfgKeys exp 0 lit named defp p = none ∧
    fillArg cfgKeys exp 1 lit named defp p = none ∧
    fillArg cfgKeys exp 2 lit named defp p = some dflt ∧
    (∀ (reg : Registry) (fields : List (String × Val)) (n : String) (cls : ClassSpec)
        (mode : Nat), mode = 0 ∨ mode = 1 →
      alookup fields "_name" = some (.vstr n) →
      alookup reg n = some cls →
      validateAndLiterals fields = .ok lit →
      namedOf fields = named →
      defaultParamsOf cls = defp →
      p ∈ cls.args.drop 1 →
      ∃ ms, tryBuildOne reg cfgKeys exp mode (.vdict fields) = .ok (.missing ms) ∧
        p ∈ ms) := by
  have hcont : cfgKeys.contains p = true := List.elem_eq_true_of_mem hcfg
  have h0 : fillArg cfgKeys exp 0 lit named defp p = none := by
    have := fillArg_no_source cfgKeys exp 0 lit named defp p hlit hnamed hexp
      (by intro h; rcases h with ⟨h, _⟩ | ⟨h, _⟩ <;> cases h)
    rw [this, if_neg hec]
  have h1 : fillArg cfgKeys exp 1 lit named defp p = none := by
    have := fillArg_no_source cfgKeys exp 1 lit named defp p hlit hnamed hexp
      (by
        intro h
        rcases h with ⟨_, h, _⟩ | ⟨h, _⟩
        · exact h hcont
        · cases h)
    rw [this, if_neg hec]
  refine ⟨h0, h1, ?_, ?_⟩
  · exact fillArg_default cfgKeys exp 2 lit named defp p dflt hlit hnamed hexp hdef
      (Or.inr rfl)
  · intro reg fields n cls mode hmode hname hreg hval hnmd hdp hp
    have hnone : fillArg cfgKeys exp mode lit (namedOf fields)
        (defaultParamsOf cls) p = none := by
      rw [hnmd, hdp]
      rcases hmode with h | h
      · rw [h]; exact h0
      · rw [h]; exact h1
    exact tryBuildOne_missing_of_none reg cfgKeys exp mode fields n cls lit p
      hname hreg hval hp hnone

/-- Witness for C1 at the class `Pair(self, left, right=0)`: pending key
`right` blocks the default in tiers 0 and 1, tier 2 fills `0`. -/
theorem C1_default_vs_pending_witness :
    fillArg ["b", "right"] [("w", Val.vint 1)] 0 [] [("left", Val.vstr "w")]
        [("right", Val.vint 0)] "right" = none ∧
    fillArg ["b", "right"] [("w", Val.vint 1)] 1 [] [("left", Val.vstr "w")]
        [("right", Val.vint 0)] "right" = none ∧
    fillArg ["b", "right"] [("w", Val.vint 1)] 2 [] [("left", Val.vstr "w")]
        [("right", Val.vint 0)] "right" = some (Val.vint 0) ∧
    (∀ (reg : Registry) (fields : List (String × Val)) (n : String) (cls : ClassSpec)
        (mode : Nat), mode = 0 ∨ mode = 1 →
      alookup fields "_name" = some (.vstr n) →
      alookup reg n = some cls →
      validateAndLiterals fields = .ok [] →
      namedOf fields = [("left", Val.vstr "w")] →
      defaultParamsOf cls = [("right", Val.vint 0)] →
      "right" ∈ cls.args.drop 1 →
      ∃ ms, tryBuildOne reg ["b", "right"] [("w", Val.vint 1)] mode
          (.vdict fields) = .ok (.missing ms) ∧ "right" ∈ ms) :=
  C1_default_vs_pending ["b", "right"] [("w", Val.vint 1)] []
    [("left", Val.vstr "w")] [("right", Val.vint 0)] "right" (Val.vint 0)
    rfl (by decide) rfl rfl (by decide) rfl

/-- Counterexample to C2 as stated: for the descriptor
`{_name: WithEC, experiment_config: "a"}` with `a` already resolved to `5`,
the first applicable source in the claimed priority order is the
self-reference (the parameter *is* the reserved name), yet the code fills
the parameter with the alias value `5`, not with the resolver instance:
the `if arg == 'experiment_config'` binding is overwritten by the
`if arg in named_params` chain. -/
theorem C2_counterexample :
    tryBuildOne regT ["b"] [("a", Val.vint 5)] 0
        (Val.vdict [("_name", Val.vstr "WithEC"), ("experiment_config", Val.vstr "a")]) =
      .ok (.built (Val.vobj "WithEC" [("experiment_config", Val.vint 5)])
        (.plugin "WithEC" [("experiment_config", some (Val.vstr "a"))]
          [("experiment_config", Val.vint 5)])) ∧
    Val.vint 5 ≠ Val.vself := by
  refine ⟨rfl, ?_⟩
  intro h
  cases h

/-- **C2 (amended).** Priority of parameter sources as the code implements
it: a literal override always wins and is never replaced; otherwise an alias
lookup (single key, or list with all keys present), then a direct key match,
then a constructor default (gated on tier 1 by the parameter not being a
pending configuration key, unconditional on tier 2); the reserved name
`experiment_config` is pre-bound to the resolver but *overwritten* by any of
those later sources, so the self-reference takes effect only when no alias,
direct match, or tier-admissible default applies. -/
theorem C2_priority (cfgKeys : List String)
    (exp lit named defp : List (String × Val)) (arg : String) (mode : Nat) :
    (∀ w, alookup lit arg = some w →
        fillArg cfgKeys exp mode lit named defp arg = some w) ∧
    (alookup lit arg = none → ∀ a w, alookup named arg = some (.vstr a) →
        alookup exp a = some w →
        fillArg cfgKeys exp mode lit named defp arg = some w) ∧
    (alookup lit arg = none → ∀ ns vs, alookup named arg = some (.vlist ns) →
        lookupAll exp ns = some vs →
        fillArg cfgKeys exp mode lit named defp arg = some (.vlist vs)) ∧
    (alookup lit arg = none → alookup named arg = none → ∀ w,
        alookup exp arg = some w →
        fillArg cfgKeys exp mode lit named defp arg = some w) ∧
    (alookup lit arg = none → alookup named arg = none →
        alookup exp arg = none → ∀ d, alookup defp arg = some d →
        ((mode = 1 ∧ arg ∉ cfgKeys) ∨ mode = 2) →
        fillArg cfgKeys exp mode lit named defp arg = some d) ∧
    (alookup lit arg = none → alookup named arg = none →
        alookup exp arg = none →
        (¬ ((mode = 1 ∧ ¬ cfgKeys.contains arg ∧ (alookup defp arg).isSome) ∨
            (mode = 2 ∧ (alookup defp arg).isSome))) →
        fillArg cfgKeys exp mode lit named defp arg =
          if arg = "experiment_config" then some Val.vself else none) ∧
    (alookup lit arg = none → ∀ a, alookup named arg = some (.vstr a) →
        alookup exp a = none →
        fillArg cfgKeys exp mode lit named defp arg =
          if arg = "experiment_config" then some Val.vself else none) ∧
    (∀ (reg : Registry) (fields : List (String × Val)) (n : String)
        (cls : ClassSpec) (obj : Val) (f : Factory),
      tryBuildOne reg cfgKeys exp mode (.vdict fields) = .ok (.built obj f) →
      alookup fields "_name" = some (.vstr n) →
      alookup reg n = some cls →
      validateAndLiterals fields = .ok lit →
      namedOf fields = named →
      arg ∈ cls.args.drop 1 →
      ∀ w, alookup lit arg = some w →
      ∃ ps, obj = .vobj n ps ∧ alookup ps arg = some w) := by
  refine ⟨?_, ?_, ?_, ?_, ?_, ?_, ?_, ?_⟩
  · intro w h
    exact fillArg_lit cfgKeys exp mode lit named defp arg w h
  · intro hlit a w hnamed hexp
    exact fillArg_alias_hit cfgKeys exp mode lit named defp arg a w hlit hnamed hexp
  · intro hlit ns vs hnamed hall
    exact fillArg_listAlias_hit cfgKeys exp mode lit named defp arg ns vs hlit hnamed hall
  · intro hlit hnamed w hexp
    exact fillArg_direct cfgKeys exp mode lit named defp arg w hlit hnamed hexp
  · intro hlit hnamed hexp d hdef hmode
    exact fillArg_default cfgKeys exp mode lit named defp arg d hlit hnamed hexp hdef hmode
  · intro hlit hnamed hexp hno
    exact fillArg_no_source cfgKeys exp mode lit named defp arg hlit hnamed hexp hno
  · intro hlit a hnamed hexp
    exact fillArg_alias_miss cfgKeys exp mode lit named defp arg a hlit hnamed hexp
  · intro reg fields n cls obj f hbuilt hname hreg hval hnmd hmem w hw
    rw [tryBuildOne_eq reg cfgKeys exp mode fields n cls lit hname hreg hval] at hbuilt
    by_cases hc : ((buildParams cfgKeys exp mode lit (namedOf fields)
        (defaultParamsOf cls) (cls.args.drop 1)).1.length : Int) =
        (cls.args.length : Int) - 1
    · rw [if_pos hc] at hbuilt
      injection hbuilt with hb
      injection hb with hb1 hb2
      refine ⟨_, hb1.symm, ?_⟩
      rw [alookup_buildParams, if_pos hmem]
      exact fillArg_lit cfgKeys exp mode lit (namedOf fields)
        (defaultParamsOf cls) arg w hw
    · rw [if_neg hc] at hbuilt
      injection hbuilt with hb
      cases hb

/-- Witness for C2 (amended): a literal override (`value_: 9`) wins although
the key `value` is resolved; with no other source, `experiment_config` falls
back to the resolver instance. -/
theorem C2_priority_witness :
    fillArg ["b"] [("value", Val.vint 3)] 0 [("value", Val.vint 9)] []
        [] "value" = some (Val.vint 9) ∧
    fillArg ["b"] [] 0 [] [] [] "experiment_config" = some Val.vself := by
  constructor
  · exact (C2_priority ["b"] [("value", Val.vint 3)] [("value", Val.vint 9)] []
      [] "value" 0).1 (Val.vint 9) rfl
  · have h := (C2_priority ["b"] [] [] [] [] "experiment_config" 0).2.2.2.2.2.1
      rfl rfl rfl (by intro h; rcases h with ⟨h, -⟩ | ⟨h, -⟩ <;> cases h)
    simpa using h

theorem lookupAll_all_present (exp : List (String × Val)) (names : List String)
    (h : ∀ a ∈ names, (alookup exp a).isSome) :
    lookupAll exp (names.map Val.vstr) =
      some (names.map (fun a => (alookup exp a).getD Val.vnull)) := by
  induction names with
  | nil => simp [lookupAll]
  | cons a rest ih =>
      have ha : (alookup exp a).isSome := h a (by simp)
      obtain ⟨w, hw⟩ := Option.isSome_iff_exists.mp ha
      simp only [List.map_cons, lookupAll, hw]
      rw [ih (fun x hx => h x (List.mem_cons_of_mem a hx))]
      simp [hw]

theorem lookupAll_missing (exp : List (String × Val)) (names : List String)
    (h : ∃ a ∈ names, alookup exp a = none) :
    lookupAll exp (names.map Val.vstr) = none := by
  induction names with
  | nil => simp at h
  | cons a rest ih =>
      rcases h with ⟨x, hx, hxe⟩
      rcases List.mem_cons.mp hx with rfl | hxr
      · simp [lookupAll, hxe]
      · simp only [List.map_cons, lookupAll]
        cases ha : alookup exp a with
        | none => rfl
        | some w => rw [ih ⟨x, hxr, hxe⟩]

/-- Counterexample to C3 as stated: a list-alias parameter named
`experiment_config` whose referenced key `zz` is *not* resolved is
nevertheless filled (with the resolver instance), and the descriptor is
constructed in that very scan instead of staying pending. -/
theorem C3_counterexample :
    alookup ([] : List (String × Val)) "zz" = none ∧
    tryBuildOne regT ["b"] [] 0
        (Val.vdict [("_name", Val.vstr "WithEC"),
          ("experiment_config", Val.vlist [Val.vstr "zz"])]) =
      .ok (.built (Val.vobj "WithEC" [("experiment_config", Val.vself)])
        (.plugin "WithEC" [("experiment_config", some (Val.vlist [Val.vstr "zz"]))]
          [("experiment_config", Val.vself)])) :=
  ⟨rfl, rfl⟩

/-- **C3 (amended).** For every list-alias parameter other than the reserved
name `experiment_config` (which is pre-bound to the resolver and hence
filled regardless): the parameter is filled exactly when every referenced
key is already resolved, in which case it receives the referenced keys'
values in order; if at least one key is unresolved the parameter stays
unfilled and the descriptor remains pending in that scan, the parameter
among its missing ones. -/
theorem C3_list_alias (cfgKeys : List String)
    (exp lit named defp : List (String × Val)) (arg : String) (mode : Nat)
    (ns : List Val)
    (hec : arg ≠ "experiment_config")
    (hlit : alookup lit arg = none)
    (hnamed : alookup named arg = some (.vlist ns)) :
    (∀ vs, lookupAll exp ns = some vs →
        fillArg cfgKeys exp mode lit named defp arg = some (.vlist vs)) ∧
    (lookupAll exp ns = none →
        fillArg cfgKeys exp mode lit named defp arg = none) ∧
    (∀ names : List String, ns = names.map Val.vstr →
        (∀ a ∈ names, (alookup exp a).isSome) →
        lookupAll exp ns = some (names.map (fun a => (alookup exp a).getD Val.vnull))) ∧
    (∀ names : List String, ns = names.map Val.vstr →
        (∃ a ∈ names, alookup exp a = none) →
        lookupAll exp ns = none) ∧
    (∀ (reg : Registry) (fields : List (String × Val)) (n : String) (cls : ClassSpec),
      lookupAll exp ns = none →
      alookup fields "_name" = some (.vstr n) →
      alookup reg n = some cls →
      validateAndLiterals fields = .ok lit →
      namedOf fields = named →
      arg ∈ cls.args.drop 1 →
      ∃ ms, tryBuildOne reg cfgKeys exp mode (.vdict fields) = .ok (.missing ms) ∧
        arg ∈ ms) := by
  have hmiss : lookupAll exp ns = none →
      fillArg cfgKeys exp mode lit named defp arg = none := by
    intro hall
    rw [fillArg_listAlias_miss cfgKeys exp mode lit named defp arg ns hlit hnamed hall,
      if_neg hec]
  refine ⟨?_, hmiss, ?_, ?_, ?_⟩
  · intro vs hall
    exact fillArg_listAlias_hit cfgKeys exp mode lit named defp arg ns vs hlit hnamed hall
  · intro names hns hall
    subst hns
    exact lookupAll_all_present exp names hall
  · intro names hns hex
    subst hns
    exact lookupAll_missing exp names hex
  · intro reg fields n cls hall hname hreg hval hnmd hmem
    have hnone : fillArg cfgKeys exp mode lit (namedOf fields)
        (defaultParamsOf cls) arg = none := by
      rw [fillArg_listAlias_miss cfgKeys exp mode lit (namedOf fields)
        (defaultParamsOf cls) arg ns hlit (by rw [hnmd]; exact hnamed) hall,
        if_neg hec]
    exact tryBuildOne_missing_of_none reg cfgKeys exp mode fields n cls lit arg
      hname hreg hval hmem hnone

/-- Witness for C3 (amended) on a two-key list alias with one key missing:
the fill is `none` and the lookup fails; with both keys present the values
come back in order. -/
theorem C3_list_alias_witness :
    fillArg ["b"] [("x", Val.vint 1)] 0 [] [("left", Val.vlist [Val.vstr "x", Val.vstr "y"])]
        [] "left" = none ∧
    lookupAll [("x", Val.vint 1), ("y", Val.vint 2)]
        [Val.vstr "x", Val.vstr "y"] =
      some [Val.vint 1, Val.vint 2] := by
  constructor
  · exact (C3_list_alias ["b"] [("x", Val.vint 1)] [] [("left", Val.vlist [Val.vstr "x", Val.vstr "y"])]
      [] "left" 0 [Val.vstr "x", Val.vstr "y"] (by decide) rfl rfl).2.1 rfl
  · have h := (C3_list_alias ["b"] [("x", Val.vint 1), ("y", Val.vint 2)] []
      [("left", Val.vlist [Val.vstr "x", Val.vstr "y"])] [] "left" 0
      [Val.vstr "x", Val.vstr "y"] (by decide) rfl rfl).2.2.1 ["x", "y"] rfl
      (by intro a ha; fin_cases ha <;> rfl)
    simpa using h

/-! ## Scan and fixpoint lemmas -/

theorem scanOnce_configured_mem (reg : Registry) (cfgKeys : List String) (mode : Nat) :
    ∀ (entries exp : List (String × Val)) (fac : List (String × Factory)),
      ∀ k ∈ (scanOnce reg cfgKeys mode entries exp fac).configured, k ∈ akeys entries := by
  intro entries
  induction entries with
  | nil => intro exp fac k hk; simp [scanOnce] at hk
  | cons e rest ih =>
      intro exp fac k hk
      obtain ⟨ek, ev⟩ := e
      simp only [scanOnce] at hk
      cases htry : tryBuildOne reg cfgKeys exp mode ev with
      | error m => rw [htry] at hk; simp at hk
      | ok oc =>
          cases oc with
          | built obj f =>
              rw [htry] at hk
              simp only [List.mem_cons] at hk
              rcases hk with h | h
              · simp [akeys, h]
              · have := ih (aset exp ek obj) (aset fac ek f) k h
                simp [akeys] at this ⊢
                exact Or.inr this
          | missing ms =>
              rw [htry] at hk
              have := ih exp fac k hk
              simp [akeys] at this ⊢
              exact Or.inr this

theorem scanOnce_err_shape (reg : Registry) (cfgKeys : List String) (mode : Nat) :
    ∀ (entries exp : List (String × Val)) (fac : List (String × Factory)),
      (scanOnce reg cfgKeys mode entries exp fac).err = none ∨
      ∃ m, (scanOnce reg cfgKeys mode entries exp fac).err = some (.valueError m) := by
  intro entries
  induction entries with
  | nil => intro exp fac; left; rfl
  | cons e rest ih =>
      intro exp fac
      obtain ⟨ek, ev⟩ := e
      simp only [scanOnce]
      cases htry : tryBuildOne reg cfgKeys exp mode ev with
      | error m => right; exact ⟨m, rfl⟩
      | ok oc =>
          cases oc with
          | built obj f => exact ih (aset exp ek obj) (aset fac ek f)
          | missing ms => exact ih exp fac

/-- A scan that configures nothing and raises no `ValueError` leaves
`experiment`/`factories` unchanged and reports, for every scanned entry, its
missing-parameter set (computed against the unchanged `experiment`). -/
theorem scanOnce_stuck (reg : Registry) (cfgKeys : List String) (mode : Nat) :
    ∀ (entries exp : List (String × Val)) (fac : List (String × Factory)),
      (scanOnce reg cfgKeys mode entries exp fac).configured = [] →
      (scanOnce reg cfgKeys mode entries exp fac).err = none →
      (scanOnce reg cfgKeys mode entries exp fac).exp = exp ∧
      (scanOnce reg cfgKeys mode entries exp fac).fac = fac ∧
      (scanOnce reg cfgKeys mode entries exp fac).unconfigured =
        entries.map (fun kv => (kv.1, missingArgs reg cfgKeys exp mode kv.2)) := by
  intro entries
  induction entries with
  | nil => intro exp fac _ _; exact ⟨rfl, rfl, rfl⟩
  | cons e rest ih =>
      intro exp fac hconf herr
      obtain ⟨ek, ev⟩ := e
      simp only [scanOnce] at hconf herr ⊢
      cases htry : tryBuildOne reg cfgKeys exp mode ev with
      | error m => rw [htry] at herr; simp at herr
      | ok oc =>
          cases oc with
          | built obj f => rw [htry] at hconf; simp at hconf
          | missing ms =>
              rw [htry] at hconf herr
              obtain ⟨h1, h2, h3⟩ := ih exp fac hconf herr
              refine ⟨h1, h2, ?_⟩
              rw [h3]
              simp [missingArgs, htry]

theorem build_items_nil (reg : Registry) (mode : Nat) (s : BuildState)
    (h : s.config = []) : build_items reg mode s = (s, none) := by
  rw [build_items]
  split
  · rfl
  · rename_i heq
    rw [h] at heq
    cases heq

theorem build_items_cons (reg : Registry) (mode : Nat) (s : BuildState)
    (h : s.config ≠ []) :
    build_items reg mode s =
      match (passResult reg mode s).err with
      | some e => (⟨s.config, (passResult reg mode s).exp, (passResult reg mode s).fac⟩,
          some e)
      | none =>
          if (passResult reg mode s).configured = [] then
            (⟨s.config, (passResult reg mode s).exp, (passResult reg mode s).fac⟩,
              some (.unconfigured (passResult reg mode s).unconfigured))
          else build_items reg mode (passNext reg mode s) := by
  rw [build_items]
  split
  · rename_i heq
    exact absurd heq h
  · rename_i heq
    simp only [passResult, passNext]
    rfl

theorem passNext_length_lt (reg : Registry) (mode : Nat) (s : BuildState)
    (h : (passResult reg mode s).configured ≠ []) :
    (passNext reg mode s).config.length < s.config.length := by
  obtain ⟨k0, hk0⟩ : ∃ k0, k0 ∈ (passResult reg mode s).configured := by
    cases hcc : (passResult reg mode s).configured with
    | nil => exact absurd hcc h
    | cons a l => exact ⟨a, by simp [hcc]⟩
  have hk0mem : k0 ∈ akeys s.config :=
    scanOnce_configured_mem reg (akeys s.config) mode s.config s.experiment
      s.factories k0 hk0
  apply List.length_filter_lt_length_iff_exists.mpr
  simp only [akeys, List.mem_map] at hk0mem
  obtain ⟨kv, hkv, hfst⟩ := hk0mem
  refine ⟨kv, hkv, ?_⟩
  simp only [decide_eq_true_eq, Decidable.not_not, hfst]
  exact hk0

theorem build_items_scan_err (reg : Registry) (mode : Nat) (s : BuildState)
    (hne : s.config ≠ []) (e : BuildErr) (herr : (passResult reg mode s).err = some e) :
    build_items reg mode s =
      (⟨s.config, (passResult reg mode s).exp, (passResult reg mode s).fac⟩, some e) := by
  rw [build_items_cons reg mode s hne, herr]

theorem build_items_stuck (reg : Registry) (mode : Nat) (s : BuildState)
    (hne : s.config ≠ []) (herr : (passResult reg mode s).err = none)
    (hconf : (passResult reg mode s).configured = []) :
    build_items reg mode s =
      (s, some (.unconfigured (s.config.map (fun kv =>
        (kv.1, missingArgs reg (akeys s.config) s.experiment mode kv.2))))) := by
  rw [build_items_cons reg mode s hne, herr, if_pos hconf]
  obtain ⟨h1, h2, h3⟩ := scanOnce_stuck reg (akeys s.config) mode s.config
    s.experiment s.factories hconf herr
  simp only [passResult] at h1 h2 h3 ⊢
  rw [h1, h2, h3]

theorem build_items_progress (reg : Registry) (mode : Nat) (s : BuildState)
    (hne : s.config ≠ []) (herr : (passResult reg mode s).err = none)
    (hconf : (passResult reg mode s).configured ≠ []) :
    build_items reg mode s = build_items reg mode (passNext reg mode s) := by
  rw [build_items_cons reg mode s hne, herr, if_neg hconf]

/-- Whenever `_build_items` raises `UnconfiguredItemsException`, the payload
names every entry of the (nonempty) pending set at the stuck pass, each with
its missing-parameter set, and the returned state is that stuck state. -/
theorem build_items_unconf_payload (reg : Registry) (mode : Nat) :
    ∀ (n : Nat) (s : BuildState), s.config.length ≤ n →
      ∀ u, (build_items reg mode s).2 = some (.unconfigured u) →
      (build_items reg mode s).1.config ≠ [] ∧
      u = (build_items reg mode s).1.config.map (fun kv =>
        (kv.1, missingArgs reg (akeys (build_items reg mode s).1.config)
          (build_items reg mode s).1.experiment mode kv.2)) := by
  intro n
  induction n with
  | zero =>
      intro s hlen u hu
      have hnil : s.config = [] := List.length_eq_zero.mp (Nat.le_zero.mp hlen)
      rw [build_items_nil reg mode s hnil] at hu
      cases hu
  | succ n ih =>
      intro s hlen u hu
      cases hcfg : s.config with
      | nil =>
          rw [build_items_nil reg mode s hcfg] at hu
          cases hu
      | cons e rest =>
          have hne : s.config ≠ [] := by rw [hcfg]; simp
          rw [build_items_cons reg mode s hne] at hu ⊢
          rcases scanOnce_err_shape reg (akeys s.config) mode s.config
              s.experiment s.factories with herr | ⟨m, herr⟩
          · rw [show (passResult reg mode s).err = none from herr] at hu ⊢
            by_cases hconf : (passResult reg mode s).configured = []
            · rw [if_pos hconf] at hu ⊢
              simp only at hu
              injection hu with hu
              injection hu with hu
              obtain ⟨h1, h2, h3⟩ := scanOnce_stuck reg (akeys s.config) mode
                s.config s.experiment s.factories hconf herr
              refine ⟨hne, ?_⟩
              rw [← hu]
              simp only [passResult]
              rw [h3, h1]
            · rw [if_neg hconf] at hu ⊢
              have hlt := passNext_length_lt reg mode s hconf
              exact ih (passNext reg mode s) (by omega) u hu
          · rw [← build_items_cons reg mode s hne] at hu
            rw [build_items_scan_err reg mode s hne (.valueError m) herr] at hu
            exact BuildErr.noConfusion (Option.some.inj hu)

/-- An error-free return of `_build_items` means the pending set was
emptied. -/
theorem build_items_ok_empty (reg : Registry) (mode : Nat) :
    ∀ (n : Nat) (t : BuildState), t.config.length ≤ n →
      (build_items reg mode t).2 = none → (build_items reg mode t).1.config = [] := by
  intro n
  induction n with
  | zero =>
      intro t hlen hnone
      have hnil : t.config = [] := List.length_eq_zero.mp (Nat.le_zero.mp hlen)
      rw [build_items_nil reg mode t hnil]
      exact hnil
  | succ n ih =>
      intro t hlen hnone
      cases hcfg : t.config with
      | nil =>
          rw [build_items_nil reg mode t hcfg]
          exact hcfg
      | cons e rest =>
          have hne : t.config ≠ [] := by rw [hcfg]; simp
          rcases scanOnce_err_shape reg (akeys t.config) mode t.config
              t.experiment t.factories with herr | ⟨m, herr⟩
          · by_cases hconf : (passResult reg mode t).configured = []
            · rw [build_items_stuck reg mode t hne herr hconf] at hnone
              cases hnone
            · rw [build_items_progress reg mode t hne herr hconf] at hnone ⊢
              have hlt := passNext_length_lt reg mode t hconf
              apply ih (passNext reg mode t) (by omega) hnone
          · rw [build_items_scan_err reg mode t hne (.valueError m) herr] at hnone
            cases hnone

/-- **C4.** Within one tier `_build_items` is a fixpoint loop of full scans
(the embedding `build_items` is a total function, so the loop terminates on
every finite pending set): a pass that constructs at least one descriptor is
followed by another pass on the shrunken pending set; a pass that constructs
none while entries remain pending raises `UnconfiguredItemsException` whose
payload lists every still-pending key with its set of missing parameter
names; and an error-free return means the pending set was emptied. -/
theorem C4_fixpoint_loop (reg : Registry) (mode : Nat) (s : BuildState) :
    ((build_items reg mode s).2 = none → (build_items reg mode s).1.config = []) ∧
    (s.config ≠ [] → (passResult reg mode s).err = none →
      ((passResult reg mode s).configured ≠ [] →
        build_items reg mode s = build_items reg mode (passNext reg mode s)) ∧
      ((passResult reg mode s).configured = [] →
        build_items reg mode s = (s, some (.unconfigured (s.config.map (fun kv =>
          (kv.1, missingArgs reg (akeys s.config) s.experiment mode kv.2))))))) ∧
    (∀ u, (build_items reg mode s).2 = some (.unconfigured u) →
      (build_items reg mode s).1.config ≠ [] ∧
      u = (build_items reg mode s).1.config.map (fun kv =>
        (kv.1, missingArgs reg (akeys (build_items reg mode s).1.config)
          (build_items reg mode s).1.experiment mode kv.2))) := by
  refine ⟨?_, ?_, ?_⟩
  · exact build_items_ok_empty reg mode s.config.length s (Nat.le_refl _)
  · intro hne herr
    exact ⟨fun hconf => build_items_progress reg mode s hne herr hconf,
      fun hconf => build_items_stuck reg mode s hne herr hconf⟩
  · intro u hu
    exact build_items_unconf_payload reg mode s.config.length s (Nat.le_refl _) u hu

/-- Witness for C4: a one-descriptor pending set whose alias never resolves
reaches the fixpoint in one pass and raises with key `b` missing `value`. -/
theorem C4_fixpoint_loop_witness :
    build_items regT 0
        ⟨[("b", Val.vdict [("_name", Val.vstr "Box"), ("value", Val.vstr "nope")])],
          [], []⟩ =
      (⟨[("b", Val.vdict [("_name", Val.vstr "Box"), ("value", Val.vstr "nope")])],
          [], []⟩,
        some (.unconfigured [("b", ["value"])])) := by
  have h := (C4_fixpoint_loop regT 0
    ⟨[("b", Val.vdict [("_name", Val.vstr "Box"), ("value", Val.vstr "nope")])],
      [], []⟩).2.1 (by simp) rfl
  exact h.2 rfl

/-- **C5.** The `UnconfiguredItemsException` payloads of tiers 0 and 1 are
caught and discarded — whatever they were, the run continues into the next
tier from the partially-resolved state — and only the tier-2 outcome decides
`__init__`: a tier-2 error (of either kind) is the fatal result, and a
tier-2 `UnconfiguredItemsException` enumerates, in one combined report,
every key still pending after tier 2 with its missing parameter names. -/
theorem C5_tier_escalation (reg : Registry) (raw : List (String × Val))
    (env : List (String × String)) (sA sB sC : BuildState)
    (iA iB : List (String × List String)) (eC : Option BuildErr)
    (hA : build_items reg 0 (classifyState env raw) = (sA, some (.unconfigured iA)))
    (hB : build_items reg 1 sA = (sB, some (.unconfigured iB)))
    (hC : build_items reg 2 sB = (sC, eC)) :
    (eC = none → expInit reg raw env = .ok (sC.experiment, sC.factories)) ∧
    (∀ e, eC = some e → expInit reg raw env = .error e) ∧
    (∀ items, eC = some (.unconfigured items) →
      expInit reg raw env = .error (.unconfigured items) ∧
      sC.config ≠ [] ∧
      items = sC.config.map (fun kv =>
        (kv.1, missingArgs reg (akeys sC.config) sC.experiment 2 kv.2))) := by
  refine ⟨?_, ?_, ?_⟩
  · intro h
    subst h
    rw [expInit, expInitSt]
    simp only [hA, hB, hC]
  · intro e h
    subst h
    rw [expInit, expInitSt]
    simp only [hA, hB, hC]
  · intro items h
    subst h
    have hpay := build_items_unconf_payload reg 2 sB.config.length sB (Nat.le_refl _)
      items (by rw [hC])
    rw [hC] at hpay
    refine ⟨?_, hpay.1, hpay.2⟩
    rw [expInit, expInitSt]
    simp only [hA, hB, hC]

/-- Witness for C5: the one-descriptor configuration with an unresolvable
alias fails all three tiers; the final error is the tier-2 report naming the
pending key `b` and its missing parameter `value`. -/
theorem C5_tier_escalation_witness :
    expInit regT [("b", Val.vdict [("_name", Val.vstr "Box"), ("value", Val.vstr "nope")])] [] =
      .error (.unconfigured [("b", ["value"])]) := by
  have hA : build_items regT 0
      (classifyState [] [("b", Val.vdict [("_name", Val.vstr "Box"), ("value", Val.vstr "nope")])]) =
      (classifyState [] [("b", Val.vdict [("_name", Val.vstr "Box"), ("value", Val.vstr "nope")])],
        some (.unconfigured [("b", ["value"])])) := by
    have h := build_items_stuck regT 0
      (classifyState [] [("b", Val.vdict [("_name", Val.vstr "Box"), ("value", Val.vstr "nope")])])
      (fun hc => nomatch hc) rfl rfl
    exact h
  have hB : build_items regT 1
      (classifyState [] [("b", Val.vdict [("_name", Val.vstr "Box"), ("value", Val.vstr "nope")])]) =
      (classifyState [] [("b", Val.vdict [("_name", Val.vstr "Box"), ("value", Val.vstr "nope")])],
        some (.unconfigured [("b", ["value"])])) := by
    have h := build_items_stuck regT 1
      (classifyState [] [("b", Val.vdict [("_name", Val.vstr "Box"), ("value", Val.vstr "nope")])])
      (fun hc => nomatch hc) rfl rfl
    exact h
  have hC : build_items regT 2
      (classifyState [] [("b", Val.vdict [("_name", Val.vstr "Box"), ("value", Val.vstr "nope")])]) =
      (classifyState [] [("b", Val.vdict [("_name", Val.vstr "Box"), ("value", Val.vstr "nope")])],
        some (.unconfigured [("b", ["value"])])) := by
    have h := build_items_stuck regT 2
      (classifyState [] [("b", Val.vdict [("_name", Val.vstr "Box"), ("value", Val.vstr "nope")])])
      (fun hc => nomatch hc) rfl rfl
    exact h
  have h := (C5_tier_escalation regT
    [("b", Val.vdict [("_name", Val.vstr "Box"), ("value", Val.vstr "nope")])] []
    _ _ _ _ _ (some (.unconfigured [("b", ["value"])])) hA hB hC).2.2
    [("b", ["value"])] rfl
  exact h.1

/-! ## Malformed entries -/

theorem akeys_cons {α : Type} (k : String) (v : α) (rest : List (String × α)) :
    akeys ((k, v) :: rest) = k :: akeys rest := rfl

theorem mem_unique_of_nodup {α : Type} (l : List (String × α)) (k : String)
    (v w : α) (hnd : (akeys l).Nodup) (hv : (k, v) ∈ l) (hw : (k, w) ∈ l) :
    v = w := by
  induction l with
  | nil => simp at hv
  | cons e rest ih =>
      obtain ⟨k0, v0⟩ := e
      rw [akeys_cons] at hnd
      have hnd' := List.nodup_cons.mp hnd
      rcases List.mem_cons.mp hv with he | hv2 <;>
        rcases List.mem_cons.mp hw with he' | hw2
      · injection he with h1 h2
        injection he' with h1' h2'
        rw [h2, h2']
      · injection he with h1 h2
        exfalso
        rw [← h1] at hnd'
        exact hnd'.1 (List.mem_map.mpr ⟨(k, w), hw2, rfl⟩)
      · injection he' with h1' h2'
        exfalso
        rw [← h1'] at hnd'
        exact hnd'.1 (List.mem_map.mpr ⟨(k, v), hv2, rfl⟩)
      · exact ih hnd'.2 hv2 hw2

theorem akeys_classifyScalars_mem (env : List (String × String))
    (raw : List (String × Val)) (k : String)
    (h : k ∈ akeys (classifyScalars env raw)) :
    ∃ w, (k, w) ∈ raw ∧ isScalar w = true := by
  rw [classifyScalars] at h
  suffices haux : ∀ (l : List (String × Val)) (acc : List (String × Val)),
      k ∈ akeys (l.foldl (fun acc kv =>
        if isScalar kv.2 then aset acc kv.1 (do_env_subs env kv.2) else acc) acc) →
      k ∈ akeys acc ∨ ∃ w, (k, w) ∈ l ∧ isScalar w = true by
    rcases haux raw [] h with hc | hc
    · simp [akeys] at hc
    · exact hc
  intro l
  induction l with
  | nil => intro acc hacc; exact Or.inl hacc
  | cons e rest ih =>
      intro acc hacc
      rw [List.foldl_cons] at hacc
      rcases ih _ hacc with hc | ⟨w, hw, hsc⟩
      · by_cases hs : isScalar e.2 = true
        · rw [if_pos hs] at hc
          rcases (mem_akeys_aset acc e.1 k _).mp hc with hc2 | hc2
          · exact Or.inl hc2
          · subst hc2
            exact Or.inr ⟨e.2, by simp, hs⟩
        · rw [if_neg hs] at hc
          exact Or.inl hc
      · exact Or.inr ⟨w, List.mem_cons_of_mem e hw, hsc⟩

theorem akeys_classifyLists_mem (env : List (String × String))
    (raw : List (String × Val)) (acc0 : List (String × Val)) (k : String)
    (h : k ∈ akeys (classifyLists env raw acc0)) :
    k ∈ akeys acc0 ∨ ∃ els, (k, Val.vlist els) ∈ raw ∧ els.all isScalar = true := by
  rw [classifyLists] at h
  induction raw generalizing acc0 with
  | nil => exact Or.inl h
  | cons e rest ih =>
      rw [List.foldl_cons] at h
      rcases ih _ h with hc | ⟨els, hw, hsc⟩
      · obtain ⟨ek, ev⟩ := e
        cases hev : ev with
        | vlist els =>
            rw [hev] at hc
            simp only at hc
            by_cases hs : els.all isScalar = true
            · rw [if_pos hs] at hc
              rcases (mem_akeys_aset acc0 ek k _).mp hc with hc2 | hc2
              · exact Or.inl hc2
              · subst hc2
                exact Or.inr ⟨els, by simp, hs⟩
            · rw [if_neg hs] at hc
              exact Or.inl hc
        | vnull => rw [hev] at hc; exact Or.inl hc
        | vbool b => rw [hev] at hc; exact Or.inl hc
        | vint n => rw [hev] at hc; exact Or.inl hc
        | vstr s => rw [hev] at hc; exact Or.inl hc
        | vdict fs => rw [hev] at hc; exact Or.inl hc
        | vobj c ps => rw [hev] at hc; exact Or.inl hc
        | vself => rw [hev] at hc; exact Or.inl hc
      · exact Or.inr ⟨els, List.mem_cons_of_mem e hw, hsc⟩

/-- A malformed entry (dict without `_name`, or list with a non-scalar
element) is never classified out: it stays in the pending `config`. -/
theorem malformed_in_config (reg : Registry) (env : List (String × String))
    (raw : List (String × Val)) (k : String) (v : Val)
    (hnd : (akeys raw).Nodup) (hmem : (k, v) ∈ raw)
    (hmal : (∃ fields, v = .vdict fields ∧ alookup fields "_name" = none) ∨
        (∃ els, v = .vlist els ∧ els.all isScalar = false)) :
    (k, v) ∈ (classifyState env raw).config := by
  have hnotcls : k ∉ akeys (classifyExp env raw) := by
    intro hk
    rw [classifyExp] at hk
    rcases akeys_classifyLists_mem env raw _ k hk with hk2 | ⟨els, hw, hsc⟩
    · obtain ⟨w, hw, hsc⟩ := akeys_classifyScalars_mem env raw k hk2
      have := mem_unique_of_nodup raw k v w hnd hmem hw
      subst this
      rcases hmal with ⟨fields, rfl, -⟩ | ⟨els, rfl, -⟩ <;> simp [isScalar] at hsc
    · have := mem_unique_of_nodup raw k v (Val.vlist els) hnd hmem hw
      rcases hmal with ⟨fields, rfl, -⟩ | ⟨els2, hv, hall⟩
      · cases this
      · rw [hv] at this
        injection this with he
        subst he
        rw [hall] at hsc
        cases hsc
  rw [classifyState]
  simp only
  apply List.mem_filter.mpr
  refine ⟨hmem, ?_⟩
  simp only [decide_eq_true_eq]
  intro hk
  exact hnotcls ((ahasKey_iff _ _).mp hk)

theorem tryBuildOne_malformed (reg : Registry) (cfgKeys : List String)
    (exp : List (String × Val)) (mode : Nat) (v : Val)
    (hmal : (∃ fields, v = .vdict fields ∧ alookup fields "_name" = none) ∨
        (∃ els, v = .vlist els ∧ els.all isScalar = false)) :
    ∃ m, tryBuildOne reg cfgKeys exp mode v = .error m := by
  rcases hmal with ⟨fields, rfl, hno⟩ | ⟨els, rfl, -⟩
  · exact ⟨"complex configuration object must have a _name property",
      by simp [tryBuildOne, hno]⟩
  · exact ⟨"complex configuration object must be a dict", by simp [tryBuildOne]⟩

theorem scanOnce_err_of_malformed (reg : Registry) (cfgKeys : List String)
    (mode : Nat) :
    ∀ (entries exp : List (String × Val)) (fac : List (String × Factory))
      (k : String) (v : Val), (k, v) ∈ entries →
      ((∃ fields, v = .vdict fields ∧ alookup fields "_name" = none) ∨
        (∃ els, v = .vlist els ∧ els.all isScalar = false)) →
      ∃ m, (scanOnce reg cfgKeys mode entries exp fac).err =
        some (.valueError m) := by
  intro entries
  induction entries with
  | nil => intro exp fac k v hmem _; simp at hmem
  | cons e rest ih =>
      intro exp fac k v hmem hmal
      obtain ⟨ek, ev⟩ := e
      simp only [scanOnce]
      cases htry : tryBuildOne reg cfgKeys exp mode ev with
      | error m => exact ⟨m, rfl⟩
      | ok oc =>
          have hrest : (k, v) ∈ rest := by
            rcases List.mem_cons.mp hmem with he | hr
            · exfalso
              have he2 : v = ev := congrArg Prod.snd he
              obtain ⟨m, hm⟩ := tryBuildOne_malformed reg cfgKeys exp mode ev
                (by rw [← he2]; exact hmal)
              rw [htry] at hm
              cases hm
            · exact hr
          cases oc with
          | built obj f => exact ih (aset exp ek obj) (aset fac ek f) k v hrest hmal
          | missing ms => exact ih exp fac k v hrest hmal

/-- Counterexample to C8 as stated: with the well-formed descriptor `a`
declared before the malformed entry `bad` (a mapping without `_name`),
classification raises nothing; the `ValueError` surfaces during the tier-0
resolution scan, *after* descriptor `a` has already been constructed. -/
theorem C8_counterexample :
    (scanOnce regT ["a", "bad"] 0
        [("a", Val.vdict [("_name", Val.vstr "Box"), ("value_", Val.vint 1)]),
          ("bad", Val.vdict [("x", Val.vstr "y")])] [] []).err =
      some (.valueError "complex configuration object must have a _name property") ∧
    alookup (scanOnce regT ["a", "bad"] 0
        [("a", Val.vdict [("_name", Val.vstr "Box"), ("value_", Val.vint 1)]),
          ("bad", Val.vdict [("x", Val.vstr "y")])] [] []).exp "a" =
      some (.vobj "Box" [("value", Val.vint 1)]) ∧
    expInit regT
        [("a", Val.vdict [("_name", Val.vstr "Box"), ("value_", Val.vint 1)]),
          ("bad", Val.vdict [("x", Val.vstr "y")])] [] =
      .error (.valueError "complex configuration object must have a _name property") := by
  refine ⟨rfl, rfl, ?_⟩
  have h0 := build_items_scan_err regT 0
    (classifyState []
      [("a", Val.vdict [("_name", Val.vstr "Box"), ("value_", Val.vint 1)]),
        ("bad", Val.vdict [("x", Val.vstr "y")])])
    (fun hc => nomatch hc)
    (.valueError "complex configuration object must have a _name property") rfl
  rw [expInit, expInitSt]
  simp only [h0]

/-- **C8 (amended).** A malformed top-level entry — a mapping without the
`_name` type selector, or a list with a non-scalar element — always makes
`ExperimentConfig.__init__` fail with a `ValueError`; the error is raised
during the first tier-0 resolution scan when the entry is reached (the
classifier itself raises nothing and merely leaves the entry pending, and
descriptors earlier in declaration order may already have been
constructed by then). -/
theorem C8_malformed_fails (reg : Registry) (raw : List (String × Val))
    (env : List (String × String)) (k : String) (v : Val)
    (hnd : (akeys raw).Nodup) (hmem : (k, v) ∈ raw)
    (hmal : (∃ fields, v = .vdict fields ∧ alookup fields "_name" = none) ∨
        (∃ els, v = .vlist els ∧ els.all isScalar = false)) :
    ∃ m, expInit reg raw env = .error (.valueError m) := by
  have hin := malformed_in_config reg env raw k v hnd hmem hmal
  have hne : (classifyState env raw).config ≠ [] := by
    intro hc
    rw [hc] at hin
    simp at hin
  obtain ⟨m, hm⟩ := scanOnce_err_of_malformed reg (akeys (classifyState env raw).config)
    0 (classifyState env raw).config (classifyState env raw).experiment
    (classifyState env raw).factories k v hin hmal
  have h0 := build_items_scan_err reg 0 (classifyState env raw) hne
    (.valueError m) hm
  refine ⟨m, ?_⟩
  rw [expInit, expInitSt]
  simp only [h0]

/-- Witness for C8 (amended) on a single malformed entry. -/
theorem C8_malformed_fails_witness :
    ∃ m, expInit regT [("bad", Val.vdict [("x", Val.vstr "y")])] [] =
      .error (.valueError m) :=
  C8_malformed_fails regT [("bad", Val.vdict [("x", Val.vstr "y")])] []
    "bad" (Val.vdict [("x", Val.vstr "y")])
    (by simp [akeys]) (List.mem_singleton.mpr rfl)
    (Or.inl ⟨[("x", Val.vstr "y")], rfl, rfl⟩)

/-! ## State invariants across passes -/

theorem scanOnce_exp_keys (reg : Registry) (cfgKeys : List String) (mode : Nat) :
    ∀ (entries exp : List (String × Val)) (fac : List (String × Factory)) (key : String),
      key ∈ akeys (scanOnce reg cfgKeys mode entries exp fac).exp ↔
        key ∈ akeys exp ∨ key ∈ (scanOnce reg cfgKeys mode entries exp fac).configured := by
  intro entries
  induction entries with
  | nil => intro exp fac key; simp [scanOnce]
  | cons e rest ih =>
      intro exp fac key
      obtain ⟨ek, ev⟩ := e
      simp only [scanOnce]
      cases htry : tryBuildOne reg cfgKeys exp mode ev with
      | error m => simp
      | ok oc =>
          cases oc with
          | built obj f =>
              simp only
              rw [ih (aset exp ek obj) (aset fac ek f) key]
              rw [mem_akeys_aset]
              constructor
              · rintro ((h | h) | h)
                · exact Or.inl h
                · exact Or.inr (by simp [h])
                · exact Or.inr (by simp [h])
              · rintro (h | h)
                · exact Or.inl (Or.inl h)
                · rcases List.mem_cons.mp h with h | h
                  · exact Or.inl (Or.inr h)
                  · exact Or.inr h
          | missing ms =>
              simp only
              exact ih exp fac key

theorem scanOnce_exp_nodup (reg : Registry) (cfgKeys : List String) (mode : Nat) :
    ∀ (entries exp : List (String × Val)) (fac : List (String × Factory)),
      (akeys exp).Nodup → (akeys (scanOnce reg cfgKeys mode entries exp fac).exp).Nodup := by
  intro entries
  induction entries with
  | nil => intro exp fac h; exact h
  | cons e rest ih =>
      intro exp fac h
      obtain ⟨ek, ev⟩ := e
      simp only [scanOnce]
      cases htry : tryBuildOne reg cfgKeys exp mode ev with
      | error m => exact h
      | ok oc =>
          cases oc with
          | built obj f =>
              exact ih (aset exp ek obj) (aset fac ek f) (akeys_aset_nodup _ _ _ h)
          | missing ms => exact ih exp fac h

theorem akeys_filter_key {α : Type} (l : List (String × α)) (conf : List String)
    (key : String) :
    key ∈ akeys (l.filter (fun kv => decide (kv.1 ∉ conf))) ↔
      key ∈ akeys l ∧ key ∉ conf := by
  simp only [akeys, List.mem_map]
  constructor
  · rintro ⟨kv, hkv, rfl⟩
    obtain ⟨hm, hp⟩ := List.mem_filter.mp hkv
    simp only [decide_eq_true_eq] at hp
    exact ⟨⟨kv, hm, rfl⟩, hp⟩
  · rintro ⟨⟨kv, hm, rfl⟩, hp⟩
    exact ⟨kv, List.mem_filter.mpr ⟨hm, by simp [hp]⟩, rfl⟩

theorem stepPass_good (reg : Registry) (U : List String) (s s' : BuildState)
    (hg : GoodState U s) (hstep : StepPass reg s s') : GoodState U s' := by
  obtain ⟨hdisj, hndC, hndE, hcov⟩ := hg
  obtain ⟨mode, hne, herr, rfl⟩ := hstep
  have hconfmem : ∀ k ∈ (passResult reg mode s).configured, k ∈ akeys s.config :=
    fun k hk => scanOnce_configured_mem reg (akeys s.config) mode s.config
      s.experiment s.factories k hk
  have hexpkeys : ∀ key, key ∈ akeys (passResult reg mode s).exp ↔
      key ∈ akeys s.experiment ∨ key ∈ (passResult reg mode s).configured :=
    fun key => scanOnce_exp_keys reg (akeys s.config) mode s.config
      s.experiment s.factories key
  refine ⟨?_, ?_, ?_, ?_⟩
  · intro key hkE hkC
    rw [passNext] at hkC
    simp only at hkC
    rw [akeys_filter_key] at hkC
    rw [passNext] at hkE
    simp only at hkE
    rcases (hexpkeys key).mp hkE with h | h
    · exact hdisj key h hkC.1
    · exact hkC.2 h
  · rw [passNext]
    simp only
    have hsub : List.Sublist
        (akeys (s.config.filter
          (fun kv => decide (kv.1 ∉ (passResult reg mode s).configured))))
        (akeys s.config) :=
      (List.filter_sublist s.config).map Prod.fst
    exact hndC.sublist hsub
  · rw [passNext]
    simp only
    exact scanOnce_exp_nodup reg (akeys s.config) mode s.config s.experiment
      s.factories hndE
  · intro key
    rw [passNext]
    simp only
    rw [akeys_filter_key, hexpkeys]
    rw [← hcov key]
    constructor
    · rintro ((h | h) | ⟨h, hn⟩)
      · exact Or.inl h
      · exact Or.inr (hconfmem key h)
      · exact Or.inr h
    · rintro (h | h)
      · exact Or.inl (Or.inl h)
      · by_cases hc : key ∈ (passResult reg mode s).configured
        · exact Or.inl (Or.inr hc)
        · exact Or.inr ⟨h, hc⟩

theorem akeys_classify_config (env : List (String × String))
    (raw : List (String × Val)) (key : String) :
    key ∈ akeys (classifyState env raw).config ↔
      key ∈ akeys raw ∧ ahasKey (classifyExp env raw) key = false := by
  rw [classifyState]
  simp only [akeys, List.mem_map]
  constructor
  · rintro ⟨kv, hkv, rfl⟩
    obtain ⟨hm, hp⟩ := List.mem_filter.mp hkv
    simp only [decide_eq_true_eq] at hp
    exact ⟨⟨kv, hm, rfl⟩, by simpa using hp⟩
  · rintro ⟨⟨kv, hm, rfl⟩, hp⟩
    refine ⟨kv, List.mem_filter.mpr ⟨hm, ?_⟩, rfl⟩
    simp [hp]

theorem classifyScalars_nodup (env : List (String × String))
    (raw : List (String × Val)) : (akeys (classifyScalars env raw)).Nodup := by
  rw [classifyScalars]
  suffices haux : ∀ (l : List (String × Val)) (acc : List (String × Val)),
      (akeys acc).Nodup →
      (akeys (l.foldl (fun acc kv =>
        if isScalar kv.2 then aset acc kv.1 (do_env_subs env kv.2) else acc) acc)).Nodup by
    exact haux raw [] (by simp [akeys])
  intro l
  induction l with
  | nil => intro acc h; exact h
  | cons e rest ih =>
      intro acc h
      rw [List.foldl_cons]
      apply ih
      by_cases hs : isScalar e.2 = true
      · rw [if_pos hs]; exact akeys_aset_nodup _ _ _ h
      · rw [if_neg hs]; exact h

theorem classifyLists_nodup (env : List (String × String))
    (raw : List (String × Val)) (acc0 : List (String × Val))
    (h0 : (akeys acc0).Nodup) : (akeys (classifyLists env raw acc0)).Nodup := by
  rw [classifyLists]
  induction raw generalizing acc0 with
  | nil => exact h0
  | cons e rest ih =>
      rw [List.foldl_cons]
      apply ih
      obtain ⟨ek, ev⟩ := e
      cases ev with
      | vlist els =>
          simp only
          by_cases hs : els.all isScalar = true
          · rw [if_pos hs]; exact akeys_aset_nodup _ _ _ h0
          · rw [if_neg hs]; exact h0
      | vnull => exact h0
      | vbool b => exact h0
      | vint n => exact h0
      | vstr str => exact h0
      | vdict fs => exact h0
      | vobj c ps => exact h0
      | vself => exact h0

theorem classify_good (reg : Registry) (env : List (String × String))
    (raw : List (String × Val)) (hnd : (akeys raw).Nodup) :
    GoodState (akeys raw) (classifyState env raw) := by
  refine ⟨?_, ?_, ?_, ?_⟩
  · intro key hE hC
    rw [akeys_classify_config] at hC
    have : ahasKey (classifyExp env raw) key = true := (ahasKey_iff _ _).mpr hE
    rw [hC.2] at this
    cases this
  · have hsub : List.Sublist (akeys (classifyState env raw).config) (akeys raw) := by
      rw [classifyState]
      exact (List.filter_sublist raw).map Prod.fst
    exact hnd.sublist hsub
  · exact classifyLists_nodup env raw _ (classifyScalars_nodup env raw)
  · intro key
    constructor
    · rintro (h | h)
      · simp only [classifyState] at h
        rw [classifyExp] at h
        rcases akeys_classifyLists_mem env raw _ key h with h2 | ⟨els, hw, -⟩
        · obtain ⟨w, hw, -⟩ := akeys_classifyScalars_mem env raw key h2
          exact List.mem_map.mpr ⟨(key, w), hw, rfl⟩
        · exact List.mem_map.mpr ⟨(key, .vlist els), hw, rfl⟩
      · exact ((akeys_classify_config env raw key).mp h).1
    · intro h
      by_cases hE : key ∈ akeys (classifyExp env raw)
      · exact Or.inl hE
      · right
        rw [akeys_classify_config]
        refine ⟨h, ?_⟩
        rw [← Bool.not_eq_true]
        intro hc
        exact hE ((ahasKey_iff _ _).mp hc)

theorem reach_good (reg : Registry) (U : List String) (s0 s : BuildState)
    (h0 : GoodState U s0) (hr : Reach reg s0 s) : GoodState U s := by
  induction hr with
  | refl => exact h0
  | tail hstep hprev ih => exact stepPass_good reg U _ _ ih hprev

theorem build_items_reach (reg : Registry) (mode : Nat) :
    ∀ (n : Nat) (s : BuildState), s.config.length ≤ n →
      ((build_items reg mode s).2 = none ∨
        ∃ u, (build_items reg mode s).2 = some (.unconfigured u)) →
      Reach reg s (build_items reg mode s).1 := by
  intro n
  induction n with
  | zero =>
      intro s hlen _
      have hnil : s.config = [] := List.length_eq_zero.mp (Nat.le_zero.mp hlen)
      rw [build_items_nil reg mode s hnil]
      exact Relation.ReflTransGen.refl
  | succ n ih =>
      intro s hlen hshape
      cases hcfg : s.config with
      | nil =>
          rw [build_items_nil reg mode s hcfg]
          exact Relation.ReflTransGen.refl
      | cons e rest =>
          have hne : s.config ≠ [] := by rw [hcfg]; simp
          rcases scanOnce_err_shape reg (akeys s.config) mode s.config
              s.experiment s.factories with herr | ⟨m, herr⟩
          · by_cases hconf : (passResult reg mode s).configured = []
            · rw [build_items_stuck reg mode s hne herr hconf]
              exact Relation.ReflTransGen.refl
            · rw [build_items_progress reg mode s hne herr hconf] at hshape ⊢
              have hlt := passNext_length_lt reg mode s hconf
              have hstep : StepPass reg s (passNext reg mode s) := ⟨mode, hne, herr, rfl⟩
              exact Relation.ReflTransGen.head hstep
                (ih (passNext reg mode s) (by omega) hshape)
          · rw [build_items_scan_err reg mode s hne (.valueError m) herr] at hshape
            rcases hshape with hc | ⟨u, hc⟩
            · cases hc
            · exact BuildErr.noConfusion (Option.some.inj hc)

/-- **C9 (counterexample).** Resolved/pending key-disjointness does not hold
at every point of a resolution run: inside a pass, once
`experiment[k] = clazz(**params)` (line 263) has run for a descriptor, the
key sits in both mappings until the deferred `del config[k]` loop
(lines 269–271) at the end of the pass.  Concretely, classifying
`{x: 5, a: {_name: Box, value: "x"}}` leaves `a` pending with `x` resolved,
and the first tier-0 scan constructs `a`, so at the end of that scan — the
deletion not yet performed — `a` is present in both `experiment` and
`config`. -/
theorem C9_counterexample :
    classifyState [] [("x", Val.vint 5),
        ("a", Val.vdict [("_name", Val.vstr "Box"), ("value", Val.vstr "x")])] =
      ⟨[("a", Val.vdict [("_name", Val.vstr "Box"), ("value", Val.vstr "x")])],
       [("x", Val.vint 5)], [("x", Factory.param (Val.vint 5))]⟩ ∧
    "a" ∈ akeys (scanOnce regT ["a"] 0
        [("a", Val.vdict [("_name", Val.vstr "Box"), ("value", Val.vstr "x")])]
        [("x", Val.vint 5)] [("x", Factory.param (Val.vint 5))]).exp ∧
    "a" ∈ akeys [("a", Val.vdict [("_name", Val.vstr "Box"),
        ("value", Val.vstr "x")])] :=
  ⟨rfl, by decide, by decide⟩

/-- **C9 (amended).** At the boundary of every completed pass — the points
where the deferred deletion loops (lines 153–154 and 269–271) have run —
every state a resolution run visits keeps the resolved mapping
(`experiment`) and the pending mapping (`config`) key-disjoint (within a
pass a just-constructed key transiently sits in both); and on success the
final resolved graph holds exactly the raw configuration's keys, each
originating from its unique raw entry (duplicate-free on both sides). -/
theorem C9_disjoint_invariant (reg : Registry) (raw : List (String × Val))
    (env : List (String × String)) (hnd : (akeys raw).Nodup) :
    (∀ s, Reach reg (classifyState env raw) s →
      ∀ key, key ∈ akeys s.experiment → key ∉ akeys s.config) ∧
    (∀ e f, expInit reg raw env = .ok (e, f) →
      (akeys e).Nodup ∧ ∀ key, (key ∈ akeys e ↔ key ∈ akeys raw)) := by
  have hg0 : GoodState (akeys raw) (classifyState env raw) :=
    classify_good reg env raw hnd
  constructor
  · intro s hr key hE
    exact (reach_good reg (akeys raw) _ s hg0 hr).1 key hE
  · intro e f hok
    rcases h0 : build_items reg 0 (classifyState env raw) with ⟨sA, eA⟩
    rw [expInit, expInitSt] at hok
    simp only [h0] at hok
    cases eA with
    | some errA =>
        cases errA with
        | valueError m => simp at hok
        | unconfigured iA =>
            have hreachA : Reach reg (classifyState env raw) sA := by
              have := build_items_reach reg 0 (classifyState env raw).config.length
                (classifyState env raw) (Nat.le_refl _) (Or.inr ⟨iA, by rw [h0]⟩)
              rwa [h0] at this
            have hgA : GoodState (akeys raw) sA := reach_good reg _ _ _ hg0 hreachA
            rcases h1 : build_items reg 1 sA with ⟨sB, eB⟩
            simp only [h1] at hok
            cases eB with
            | some errB =>
                cases errB with
                | valueError m => simp at hok
                | unconfigured iB =>
                    have hreachB : Reach reg sA sB := by
                      have := build_items_reach reg 1 sA.config.length sA
                        (Nat.le_refl _) (Or.inr ⟨iB, by rw [h1]⟩)
                      rwa [h1] at this
                    have hgB : GoodState (akeys raw) sB :=
                      reach_good reg _ _ _ hgA hreachB
                    rcases h2 : build_items reg 2 sB with ⟨sC, eC⟩
                    simp only [h2] at hok
                    cases eC with
                    | some errC => simp at hok
                    | none =>
                        have hreachC : Reach reg sB sC := by
                          have := build_items_reach reg 2 sB.config.length sB
                            (Nat.le_refl _) (Or.inl (by rw [h2]))
                          rwa [h2] at this
                        have hgC : GoodState (akeys raw) sC :=
                          reach_good reg _ _ _ hgB hreachC
                        have hnil : sC.config = [] := by
                          have := build_items_ok_empty reg 2 sB.config.length sB
                            (Nat.le_refl _) (by rw [h2])
                          rwa [h2] at this
                        simp only [Except.ok.injEq, Prod.mk.injEq] at hok
                        obtain ⟨he, -⟩ := hok
                        subst he
                        refine ⟨hgC.2.2.1, ?_⟩
                        intro key
                        have hcov := hgC.2.2.2 key
                        rw [hnil] at hcov
                        constructor
                        · intro hk
                          exact hcov.mp (Or.inl hk)
                        · intro hk
                          rcases hcov.mpr hk with h | h
                          · exact h
                          · simp [akeys] at h
            | none =>
                have hreachB : Reach reg sA sB := by
                  have := build_items_reach reg 1 sA.config.length sA
                    (Nat.le_refl _) (Or.inl (by rw [h1]))
                  rwa [h1] at this
                have hgB : GoodState (akeys raw) sB :=
                  reach_good reg _ _ _ hgA hreachB
                rcases h2 : build_items reg 2 sB with ⟨sC, eC⟩
                simp only [h2] at hok
                cases eC with
                | some errC => simp at hok
                | none =>
                    have hreachC : Reach reg sB sC := by
                      have := build_items_reach reg 2 sB.config.length sB
                        (Nat.le_refl _) (Or.inl (by rw [h2]))
                      rwa [h2] at this
                    have hgC : GoodState (akeys raw) sC :=
                      reach_good reg _ _ _ hgB hreachC
                    have hnil : sC.config = [] := by
                      have := build_items_ok_empty reg 2 sB.config.length sB
                        (Nat.le_refl _) (by rw [h2])
                      rwa [h2] at this
                    simp only [Except.ok.injEq, Prod.mk.injEq] at hok
                    obtain ⟨he, -⟩ := hok
                    subst he
                    refine ⟨hgC.2.2.1, ?_⟩
                    intro key
                    have hcov := hgC.2.2.2 key
                    rw [hnil] at hcov
                    constructor
                    · intro hk
                      exact hcov.mp (Or.inl hk)
                    · intro hk
                      rcases hcov.mpr hk with h | h
                      · exact h
                      · simp [akeys] at h
    | none =>
        have hreachA : Reach reg (classifyState env raw) sA := by
          have := build_items_reach reg 0 (classifyState env raw).config.length
            (classifyState env raw) (Nat.le_refl _) (Or.inl (by rw [h0]))
          rwa [h0] at this
        have hgA : GoodState (akeys raw) sA := reach_good reg _ _ _ hg0 hreachA
        rcases h1 : build_items reg 1 sA with ⟨sB, eB⟩
        simp only [h1] at hok
        cases eB with
        | some errB =>
            cases errB with
            | valueError m => simp at hok
            | unconfigured iB =>
                have hreachB : Reach reg sA sB := by
                  have := build_items_reach reg 1 sA.config.length sA
                    (Nat.le_refl _) (Or.inr ⟨iB, by rw [h1]⟩)
                  rwa [h1] at this
                have hgB : GoodState (akeys raw) sB :=
                  reach_good reg _ _ _ hgA hreachB
                rcases h2 : build_items reg 2 sB with ⟨sC, eC⟩
                simp only [h2] at hok
                cases eC with
                | some errC => simp at hok
                | none =>
                    have hreachC : Reach reg sB sC := by
                      have := build_items_reach reg 2 sB.config.length sB
                        (Nat.le_refl _) (Or.inl (by rw [h2]))
                      rwa [h2] at this
                    have hgC : GoodState (akeys raw) sC :=
                      reach_good reg _ _ _ hgB hreachC
                    have hnil : sC.config = [] := by
                      have := build_items_ok_empty reg 2 sB.config.length sB
                        (Nat.le_refl _) (by rw [h2])
                      rwa [h2] at this
                    simp only [Except.ok.injEq, Prod.mk.injEq] at hok
                    obtain ⟨he, -⟩ := hok
                    subst he
                    refine ⟨hgC.2.2.1, ?_⟩
                    intro key
                    have hcov := hgC.2.2.2 key
                    rw [hnil] at hcov
                    constructor
                    · intro hk
                      exact hcov.mp (Or.inl hk)
                    · intro hk
                      rcases hcov.mpr hk with h | h
                      · exact h
                      · simp [akeys] at h
        | none =>
            have hreachB : Reach reg sA sB := by
              have := build_items_reach reg 1 sA.config.length sA
                (Nat.le_refl _) (Or.inl (by rw [h1]))
              rwa [h1] at this
            have hgB : GoodState (akeys raw) sB :=
              reach_good reg _ _ _ hgA hreachB
            rcases h2 : build_items reg 2 sB with ⟨sC, eC⟩
            simp only [h2] at hok
            cases eC with
            | some errC => simp at hok
            | none =>
                have hreachC : Reach reg sB sC := by
                  have := build_items_reach reg 2 sB.config.length sB
                    (Nat.le_refl _) (Or.inl (by rw [h2]))
                  rwa [h2] at this
                have hgC : GoodState (akeys raw) sC :=
                  reach_good reg _ _ _ hgB hreachC
                have hnil : sC.config = [] := by
                  have := build_items_ok_empty reg 2 sB.config.length sB
                    (Nat.le_refl _) (by rw [h2])
                  rwa [h2] at this
                simp only [Except.ok.injEq, Prod.mk.injEq] at hok
                obtain ⟨he, -⟩ := hok
                subst he
                refine ⟨hgC.2.2.1, ?_⟩
                intro key
                have hcov := hgC.2.2.2 key
                rw [hnil] at hcov
                constructor
                · intro hk
                  exact hcov.mp (Or.inl hk)
                · intro hk
                  rcases hcov.mpr hk with h | h
                  · exact h
                  · simp [akeys] at h

/-- Witness for C9 on a one-scalar configuration. -/
theorem C9_disjoint_invariant_witness :
    (∀ s, Reach regT (classifyState [] [("a", Val.vint 5)]) s →
      ∀ key, key ∈ akeys s.experiment → key ∉ akeys s.config) ∧
    (∀ e f, expInit regT [("a", Val.vint 5)] [] = .ok (e, f) →
      (akeys e).Nodup ∧ ∀ key, (key ∈ akeys e ↔ key ∈ akeys [("a", Val.vint 5)])) :=
  C9_disjoint_invariant regT [("a", Val.vint 5)] [] (by simp [akeys])

/-! ## Caller-frame property -/

/-- **C10.** With the Python aliasing made explicit, `__init__` leaves the
caller's mapping untouched whether it succeeds or raises: line 128 copies
the caller's entries into a fresh dict, and classification/resolution
mutate only the fresh `config` and `experiment` objects; the observable
outcome equals the pure function of the caller's (unchanged) entries. -/
theorem C10_caller_frame (reg : Registry) (st : Store) (callerRef : Nat)
    (env : List (String × String)) (h : callerRef < st.length) :
    (expInit_mut reg st callerRef env).1.get? callerRef = st.get? callerRef ∧
    getRef (expInit_mut reg st callerRef env).1 callerRef = getRef st callerRef ∧
    (expInit_mut reg st callerRef env).2 = expInit reg (getRef st callerRef) env := by
  rcases hE : expInitSt reg (getRef st callerRef) env with ⟨sF, out⟩
  have hmut : expInit_mut reg st callerRef env =
      (setRef (setRef ((st ++ [getRef st callerRef]) ++ [[]]) st.length sF.config)
        (st ++ [getRef st callerRef]).length sF.experiment, out) := by
    rw [expInit_mut]
    simp only [hE]
  have hget : (expInit_mut reg st callerRef env).1.get? callerRef =
      st.get? callerRef := by
    rw [hmut]
    simp only [setRef]
    rw [List.get?_set_ne _ _ (by simp; omega)]
    rw [List.get?_set_ne _ _ (by omega)]
    rw [List.get?_append (by simp; omega)]
    rw [List.get?_append h]
  refine ⟨hget, ?_, ?_⟩
  · rw [getRef, getRef]
    have e1 : List.getD (expInit_mut reg st callerRef env).1 callerRef
        ([] : List (String × Val)) =
        ((expInit_mut reg st callerRef env).1.get? callerRef).getD [] := rfl
    have e2 : List.getD st callerRef ([] : List (String × Val)) =
        (st.get? callerRef).getD [] := rfl
    rw [e1, e2, hget]
  · rw [hmut, expInit, hE]

/-- Witness for C10 on a one-entry store. -/
theorem C10_caller_frame_witness :
    (expInit_mut regT [[("a", Val.vint 5)]] 0 []).1.get? 0 =
      [[("a", Val.vint 5)]].get? 0 ∧
    getRef (expInit_mut regT [[("a", Val.vint 5)]] 0 []).1 0 =
      getRef [[("a", Val.vint 5)]] 0 ∧
    (expInit_mut regT [[("a", Val.vint 5)]] 0 []).2 =
      expInit regT (getRef [[("a", Val.vint 5)]] 0) [] :=
  C10_caller_frame regT [[("a", Val.vint 5)]] 0 [] (by decide)

/-! ## Well-formed descriptors resolve in tier 2 -/

theorem list_exists_min {α : Type} (l : List α) (f : α → Nat) (h : l ≠ []) :
    ∃ a ∈ l, ∀ b ∈ l, f a ≤ f b := by
  induction l with
  | nil => exact absurd rfl h
  | cons x xs ih =>
      cases hxs : xs with
      | nil => exact ⟨x, by simp, by simp⟩
      | cons y ys =>
          obtain ⟨a, ha, hmin⟩ := ih (by simp [hxs])
          rw [← hxs] at *
          by_cases hc : f x ≤ f a
          · refine ⟨x, by simp, ?_⟩
            intro b hb
            rcases List.mem_cons.mp hb with rfl | hb
            · exact Nat.le_refl _
            · exact Nat.le_trans hc (hmin b hb)
          · refine ⟨a, List.mem_cons_of_mem x ha, ?_⟩
            intro b hb
            rcases List.mem_cons.mp hb with rfl | hb
            · omega
            · exact hmin b hb

theorem wfDescB_spec (reg : Registry) (U : List String) (v : Val)
    (h : wfDescB reg U v = true) :
    ∃ fields n cls lit, v = .vdict fields ∧
      alookup fields "_name" = some (.vstr n) ∧
      alookup reg n = some cls ∧
      validateAndLiterals fields = .ok lit ∧
      cls.args ≠ [] ∧
      (cls.args.drop 1).Nodup ∧
      ∀ arg ∈ cls.args.drop 1, argFills U cls lit (namedOf fields) arg = true := by
  cases v with
  | vdict fields =>
      rw [wfDescB] at h
      split at h
      · rename_i n heq
        split at h
        · rename_i cls heq2
          split at h
          · rename_i lit heq3
            simp only [Bool.and_eq_true, List.all_eq_true, decide_eq_true_eq,
              Bool.not_eq_true'] at h
            refine ⟨fields, n, cls, lit, rfl, heq, heq2, heq3, ?_, h.1.2, h.2⟩
            intro hc
            rw [hc] at h
            simp at h
          · cases h
        · cases h
      · cases h
  | vnull => cases h
  | vbool b => cases h
  | vint n => cases h
  | vstr s2 => cases h
  | vlist xs => cases h
  | vobj c ps => cases h
  | vself => cases h

theorem argRefs_sub_U (U : List String) (cls : ClassSpec)
    (lit named : List (String × Val)) (arg : String)
    (hf : argFills U cls lit named arg = true) :
    ∀ r ∈ argRefs cls lit named arg, r ∈ U := by
  intro r hr
  rw [argRefs] at hr
  by_cases hlit : ahasKey lit arg = true
  · rw [if_pos hlit] at hr; simp at hr
  · rw [if_neg hlit] at hr
    by_cases hec : arg = "experiment_config"
    · rw [if_pos hec] at hr; simp at hr
    · rw [if_neg hec] at hr
      rw [argFills] at hf
      rw [Bool.or_eq_true, Bool.or_eq_true] at hf
      rcases hf with (hf | hf) | hf
      · exact absurd hf hlit
      · exact absurd (by simpa using hf) hec
      · cases hn : alookup named arg with
        | some al =>
            rw [hn] at hr hf
            cases al with
            | vstr a =>
                simp only [List.mem_singleton] at hr
                subst hr
                exact List.elem_iff.mp (by simpa using hf)
            | vlist ns =>
                simp only [List.mem_filterMap] at hr
                obtain ⟨e, he, hes⟩ := hr
                rw [List.all_eq_true] at hf
                have := hf e he
                cases e with
                | vstr a =>
                    injection hes with hes
                    subst hes
                    exact List.elem_iff.mp (by simpa using this)
                | vnull => cases hes
                | vbool b => cases hes
                | vint n2 => cases hes
                | vlist l2 => cases hes
                | vdict d2 => cases hes
                | vobj c2 p2 => cases hes
                | vself => cases hes
            | vnull => simp at hr
            | vbool b => simp at hr
            | vint n2 => simp at hr
            | vdict d2 => simp at hr
            | vobj c2 p2 => simp at hr
            | vself => simp at hr
        | none =>
            rw [hn] at hr hf
            by_cases hdef : ahasKey (defaultParamsOf cls) arg = true
            · rw [if_pos hdef] at hr; simp at hr
            · rw [if_neg hdef] at hr
              simp only [List.mem_singleton] at hr
              subst hr
              rw [Bool.or_eq_true] at hf
              rcases hf with hf | hf
              · exact List.elem_iff.mp hf
              · exact absurd hf hdef

theorem lookupAll_isSome_of (exp : List (String × Val)) :
    ∀ ns : List Val, (∀ e ∈ ns, ∃ a, e = Val.vstr a ∧ (alookup exp a).isSome) →
      (lookupAll exp ns).isSome := by
  intro ns
  induction ns with
  | nil => intro _; simp [lookupAll]
  | cons e rest ih =>
      intro h
      obtain ⟨a, rfl, ha⟩ := h e (by simp)
      obtain ⟨w, hw⟩ := Option.isSome_iff_exists.mp ha
      have hrest := ih (fun x hx => h x (List.mem_cons_of_mem _ hx))
      obtain ⟨ws, hws⟩ := Option.isSome_iff_exists.mp hrest
      simp [lookupAll, hw, hws]

theorem argFills_fill (U : List String) (cls : ClassSpec)
    (lit named exp : List (String × Val)) (cfgKeys : List String) (arg : String)
    (hf : argFills U cls lit named arg = true)
    (hrefs : ∀ r ∈ argRefs cls lit named arg, (alookup exp r).isSome) :
    (fillArg cfgKeys exp 2 lit named (defaultParamsOf cls) arg).isSome := by
  by_cases hlit : (alookup lit arg).isSome
  · obtain ⟨w, hw⟩ := Option.isSome_iff_exists.mp hlit
    rw [fillArg_lit cfgKeys exp 2 lit named (defaultParamsOf cls) arg w hw]
    rfl
  · have hlitn : alookup lit arg = none := by
      cases hl : alookup lit arg with
      | none => rfl
      | some w => rw [hl] at hlit; simp at hlit
    have hbase : (if arg = "experiment_config" then some Val.vself else none).isSome →
        True := fun _ => trivial
    by_cases hec : arg = "experiment_config"
    · cases hn : alookup named arg with
      | some al =>
          cases al with
          | vstr a =>
              cases hx : alookup exp a with
              | some w =>
                  rw [fillArg_alias_hit cfgKeys exp 2 lit named (defaultParamsOf cls)
                    arg a w hlitn hn hx]
                  rfl
              | none =>
                  rw [fillArg_alias_miss cfgKeys exp 2 lit named (defaultParamsOf cls)
                    arg a hlitn hn hx, if_pos hec]
                  rfl
          | vlist ns =>
              cases hall : lookupAll exp ns with
              | some vs =>
                  rw [fillArg_listAlias_hit cfgKeys exp 2 lit named
                    (defaultParamsOf cls) arg ns vs hlitn hn hall]
                  rfl
              | none =>
                  rw [fillArg_listAlias_miss cfgKeys exp 2 lit named
                    (defaultParamsOf cls) arg ns hlitn hn hall, if_pos hec]
                  rfl
          | vnull =>
              simp only [fillArg, hlitn, hn]
              simp [hec]
          | vbool b =>
              simp only [fillArg, hlitn, hn]
              simp [hec]
          | vint n2 =>
              simp only [fillArg, hlitn, hn]
              simp [hec]
          | vdict d2 =>
              simp only [fillArg, hlitn, hn]
              simp [hec]
          | vobj c2 p2 =>
              simp only [fillArg, hlitn, hn]
              simp [hec]
          | vself =>
              simp only [fillArg, hlitn, hn]
              simp [hec]
      | none =>
          cases hx : alookup exp arg with
          | some w =>
              rw [fillArg_direct cfgKeys exp 2 lit named (defaultParamsOf cls)
                arg w hlitn hn hx]
              rfl
          | none =>
              by_cases hdef : (alookup (defaultParamsOf cls) arg).isSome
              · obtain ⟨d, hd⟩ := Option.isSome_iff_exists.mp hdef
                rw [fillArg_default cfgKeys exp 2 lit named (defaultParamsOf cls)
                  arg d hlitn hn hx hd (Or.inr rfl)]
                rfl
              · rw [fillArg_no_source cfgKeys exp 2 lit named (defaultParamsOf cls)
                  arg hlitn hn hx (by
                    rintro (⟨h1, -⟩ | ⟨-, h2⟩)
                    · cases h1
                    · exact hdef h2), if_pos hec]
                rfl
    · rw [argFills] at hf
      rw [Bool.or_eq_true, Bool.or_eq_true] at hf
      rcases hf with (hf | hf) | hf
      · exact absurd hf hlit
      · exact absurd (by simpa using hf) hec
      · cases hn : alookup named arg with
        | some al =>
            rw [hn] at hf
            cases al with
            | vstr a =>
                have ha : (alookup exp a).isSome := by
                  apply hrefs
                  rw [argRefs, if_neg (by simpa [ahasKey] using hlit), if_neg hec, hn]
                  simp
                obtain ⟨w, hw⟩ := Option.isSome_iff_exists.mp ha
                rw [fillArg_alias_hit cfgKeys exp 2 lit named (defaultParamsOf cls)
                  arg a w hlitn hn hw]
                rfl
            | vlist ns =>
                rw [List.all_eq_true] at hf
                have hsome : (lookupAll exp ns).isSome := by
                  apply lookupAll_isSome_of
                  intro e he
                  have := hf e he
                  cases e with
                  | vstr a =>
                      refine ⟨a, rfl, ?_⟩
                      apply hrefs
                      rw [argRefs, if_neg (by simpa [ahasKey] using hlit),
                        if_neg hec, hn]
                      simp only [List.mem_filterMap]
                      exact ⟨.vstr a, he, rfl⟩
                  | vnull => cases this
                  | vbool b => cases this
                  | vint n2 => cases this
                  | vlist l2 => cases this
                  | vdict d2 => cases this
                  | vobj c2 p2 => cases this
                  | vself => cases this
                obtain ⟨vs, hvs⟩ := Option.isSome_iff_exists.mp hsome
                rw [fillArg_listAlias_hit cfgKeys exp 2 lit named
                  (defaultParamsOf cls) arg ns vs hlitn hn hvs]
                rfl
            | vnull => cases hf
            | vbool b => cases hf
            | vint n2 => cases hf
            | vdict d2 => cases hf
            | vobj c2 p2 => cases hf
            | vself => cases hf
        | none =>
            rw [hn] at hf
            cases hx : alookup exp arg with
            | some w =>
                rw [fillArg_direct cfgKeys exp 2 lit named (defaultParamsOf cls)
                  arg w hlitn hn hx]
                rfl
            | none =>
                by_cases hdef : (alookup (defaultParamsOf cls) arg).isSome
                · obtain ⟨d, hd⟩ := Option.isSome_iff_exists.mp hdef
                  rw [fillArg_default cfgKeys exp 2 lit named (defaultParamsOf cls)
                    arg d hlitn hn hx hd (Or.inr rfl)]
                  rfl
                · exfalso
                  have harg : (alookup exp arg).isSome := by
                    apply hrefs
                    rw [argRefs, if_neg (by simpa [ahasKey] using hlit),
                      if_neg hec, hn, if_neg (by simpa [ahasKey] using hdef)]
                    simp
                  rw [hx] at harg
                  simp at harg

theorem descRefs_eq (reg : Registry) (fields : List (String × Val)) (n : String)
    (cls : ClassSpec) (lit : List (String × Val))
    (hname : alookup fields "_name" = some (.vstr n))
    (hreg : alookup reg n = some cls)
    (hval : validateAndLiterals fields = .ok lit) :
    descRefs reg (.vdict fields) =
      (cls.args.drop 1).flatMap (argRefs cls lit (namedOf fields)) := by
  simp only [descRefs, hname, hreg, hval]

/-- A well-formed descriptor whose referenced keys are all resolved is
constructed by the tier-2 attempt. -/
theorem desc_built (reg : Registry) (U cfgKeys : List String)
    (exp : List (String × Val)) (v : Val)
    (hwfd : wfDescB reg U v = true)
    (hrefs : ∀ r ∈ descRefs reg v, (alookup exp r).isSome) :
    ∃ obj f, tryBuildOne reg cfgKeys exp 2 v = .ok (.built obj f) := by
  obtain ⟨fields, n, cls, lit, rfl, hname, hreg, hval, hargsne, hnd, hfills⟩ :=
    wfDescB_spec reg U v hwfd
  have hrefs2 : ∀ arg ∈ cls.args.drop 1,
      ∀ r ∈ argRefs cls lit (namedOf fields) arg, (alookup exp r).isSome := by
    intro arg harg r hr
    apply hrefs
    rw [descRefs_eq reg fields n cls lit hname hreg hval]
    rw [List.mem_flatMap]
    exact ⟨arg, harg, hr⟩
  have hall : ∀ arg ∈ cls.args.drop 1,
      (fillArg cfgKeys exp 2 lit (namedOf fields) (defaultParamsOf cls) arg).isSome :=
    fun arg harg => argFills_fill U cls lit (namedOf fields) exp cfgKeys arg
      (hfills arg harg) (hrefs2 arg harg)
  have hlen := buildParams_length_all cfgKeys exp 2 lit (namedOf fields)
    (defaultParamsOf cls) (cls.args.drop 1) hnd hall
  rw [tryBuildOne_eq reg cfgKeys exp 2 fields n cls lit hname hreg hval]
  have hpos : ((buildParams cfgKeys exp 2 lit (namedOf fields) (defaultParamsOf cls)
      (cls.args.drop 1)).1.length : Int) = (cls.args.length : Int) - 1 := by
    rw [hlen]
    have h1 : 1 ≤ cls.args.length := by
      cases hc : cls.args with
      | nil => exact absurd hc hargsne
      | cons a l => simp [hc]
    simp [List.length_drop]
    omega
  rw [if_pos hpos]
  exact ⟨_, _, rfl⟩

theorem tryBuildOne_wf_ok (reg : Registry) (U : List String) (v : Val)
    (hwfd : wfDescB reg U v = true) (cfgKeys : List String)
    (exp : List (String × Val)) (mode : Nat) :
    ∃ oc, tryBuildOne reg cfgKeys exp mode v = .ok oc := by
  obtain ⟨fields, n, cls, lit, rfl, hname, hreg, hval, -, -, -⟩ :=
    wfDescB_spec reg U v hwfd
  rw [tryBuildOne_eq reg cfgKeys exp mode fields n cls lit hname hreg hval]
  by_cases hc : ((buildParams cfgKeys exp mode lit (namedOf fields)
      (defaultParamsOf cls) (cls.args.drop 1)).1.length : Int) =
      (cls.args.length : Int) - 1
  · rw [if_pos hc]
    exact ⟨_, rfl⟩
  · rw [if_neg hc]
    exact ⟨_, rfl⟩

theorem scanOnce_no_err (reg : Registry) (cfgKeys : List String) (mode : Nat) :
    ∀ (entries exp : List (String × Val)) (fac : List (String × Factory)),
      (∀ kv ∈ entries, ∀ exp2 : List (String × Val),
        ∃ oc, tryBuildOne reg cfgKeys exp2 mode kv.2 = .ok oc) →
      (scanOnce reg cfgKeys mode entries exp fac).err = none := by
  intro entries
  induction entries with
  | nil => intro exp fac _; rfl
  | cons e rest ih =>
      intro exp fac hok
      obtain ⟨ek, ev⟩ := e
      simp only [scanOnce]
      cases htry : tryBuildOne reg cfgKeys exp mode ev with
      | error m =>
          obtain ⟨oc, hoc⟩ := hok (ek, ev) (by simp) exp
          rw [htry] at hoc
          cases hoc
      | ok oc =>
          cases oc with
          | built obj f =>
              exact ih (aset exp ek obj) (aset fac ek f)
                (fun kv hkv => hok kv (List.mem_cons_of_mem _ hkv))
          | missing ms =>
              exact ih exp fac (fun kv hkv => hok kv (List.mem_cons_of_mem _ hkv))

theorem scanOnce_configures (reg : Registry) (cfgKeys : List String) :
    ∀ (entries exp : List (String × Val)) (fac : List (String × Factory))
      (k : String) (v : Val),
      (∀ kv ∈ entries, ∀ exp2 : List (String × Val),
        ∃ oc, tryBuildOne reg cfgKeys exp2 2 kv.2 = .ok oc) →
      (k, v) ∈ entries →
      (∃ obj f, tryBuildOne reg cfgKeys exp 2 v = .ok (.built obj f)) →
      (scanOnce reg cfgKeys 2 entries exp fac).configured ≠ [] := by
  intro entries
  induction entries with
  | nil => intro exp fac k v _ hmem _; simp at hmem
  | cons e rest ih =>
      intro exp fac k v hok hmem hbuilt
      obtain ⟨ek, ev⟩ := e
      simp only [scanOnce]
      cases htry : tryBuildOne reg cfgKeys exp 2 ev with
      | error m =>
          obtain ⟨oc, hoc⟩ := hok (ek, ev) (by simp) exp
          rw [htry] at hoc
          cases hoc
      | ok oc =>
          cases oc with
          | built obj f => simp
          | missing ms =>
              simp only
              rcases List.mem_cons.mp hmem with he | hr
              · exfalso
                obtain ⟨obj, f, hb⟩ := hbuilt
                have he2 : v = ev := congrArg Prod.snd he
                rw [he2] at hb
                rw [htry] at hb
                injection hb with hb
                cases hb
              · exact ih exp fac k v
                  (fun kv hkv => hok kv (List.mem_cons_of_mem _ hkv)) hr hbuilt

theorem passNext_config_sub (reg : Registry) (mode : Nat) (s : BuildState) :
    ∀ kv ∈ (passNext reg mode s).config, kv ∈ s.config := by
  intro kv hkv
  rw [passNext] at hkv
  exact (List.mem_filter.mp hkv).1

/-- On a pending set of well-formed descriptors, `_build_items` never raises
`ValueError`, and the pending entries it returns are a subset of those it
was given. -/
theorem build_items_wf_sub (reg : Registry) (U : List String) (mode : Nat) :
    ∀ (n : Nat) (s : BuildState), s.config.length ≤ n →
      (∀ kv ∈ s.config, wfDescB reg U kv.2 = true) →
      ((∀ kv ∈ (build_items reg mode s).1.config, kv ∈ s.config) ∧
        ∀ m', (build_items reg mode s).2 ≠ some (.valueError m')) := by
  intro n
  induction n with
  | zero =>
      intro s hlen hwf
      have hnil : s.config = [] := List.length_eq_zero.mp (Nat.le_zero.mp hlen)
      rw [build_items_nil reg mode s hnil]
      exact ⟨fun kv hkv => by first | exact hkv | exact hnil ▸ hkv,
        fun m' h => by cases h⟩
  | succ n ih =>
      intro s hlen hwf
      cases hcfg : s.config with
      | nil =>
          rw [build_items_nil reg mode s hcfg]
          exact ⟨fun kv hkv => by first | exact hkv | exact hcfg ▸ hkv,
            fun m' h => by cases h⟩
      | cons e rest =>
          have hne : s.config ≠ [] := by rw [hcfg]; simp
          have herr : (passResult reg mode s).err = none := by
            apply scanOnce_no_err
            intro kv hkv exp2
            exact tryBuildOne_wf_ok reg U kv.2 (hwf kv hkv) (akeys s.config) exp2 mode
          by_cases hconf : (passResult reg mode s).configured = []
          · rw [build_items_stuck reg mode s hne herr hconf]
            exact ⟨fun kv hkv => by first | exact hkv | exact hcfg ▸ hkv,
              fun m' h => BuildErr.noConfusion (Option.some.inj h)⟩
          · rw [build_items_progress reg mode s hne herr hconf]
            have hlt := passNext_length_lt reg mode s hconf
            have hwf2 : ∀ kv ∈ (passNext reg mode s).config, wfDescB reg U kv.2 = true :=
              fun kv hkv => hwf kv (passNext_config_sub reg mode s kv hkv)
            obtain ⟨hsub, hnv⟩ := ih (passNext reg mode s) (by omega) hwf2
            refine ⟨fun kv hkv => ?_, hnv⟩
            have hin : kv ∈ s.config := passNext_config_sub reg mode s kv (hsub kv hkv)
            first | exact hin | exact hcfg ▸ hin

/-- Tier 2 empties every well-formed, reference-acyclic pending set. -/
theorem build_items_tier2_ok (reg : Registry) (U : List String) (rank : String → Nat) :
    ∀ (n : Nat) (s : BuildState), s.config.length ≤ n →
      GoodState U s →
      (∀ kv ∈ s.config, wfDescB reg U kv.2 = true) →
      RankOk reg rank s.config →
      (build_items reg 2 s).2 = none := by
  intro n
  induction n with
  | zero =>
      intro s hlen _ _ _
      have hnil : s.config = [] := List.length_eq_zero.mp (Nat.le_zero.mp hlen)
      rw [build_items_nil reg 2 s hnil]
  | succ n ih =>
      intro s hlen hgood hwf hrank
      cases hcfg : s.config with
      | nil => rw [build_items_nil reg 2 s hcfg]
      | cons e rest =>
          have hne : s.config ≠ [] := by rw [hcfg]; simp
          have hok : ∀ kv ∈ s.config, ∀ exp2 : List (String × Val),
              ∃ oc, tryBuildOne reg (akeys s.config) exp2 2 kv.2 = .ok oc :=
            fun kv hkv exp2 =>
              tryBuildOne_wf_ok reg U kv.2 (hwf kv hkv) (akeys s.config) exp2 2
          have herr : (passResult reg 2 s).err = none :=
            scanOnce_no_err reg (akeys s.config) 2 s.config s.experiment s.factories hok
          obtain ⟨kv0, hkv0, hmin⟩ := list_exists_min s.config (fun kv => rank kv.1) hne
          have hrefs : ∀ r ∈ descRefs reg kv0.2, (alookup s.experiment r).isSome := by
            intro r hr
            have hrU : r ∈ U := by
              obtain ⟨fields, n2, cls, lit, hv, hname, hreg2, hval, -, -, hfills⟩ :=
                wfDescB_spec reg U kv0.2 (hwf kv0 hkv0)
              rw [hv] at hr
              rw [descRefs_eq reg fields n2 cls lit hname hreg2 hval] at hr
              rw [List.mem_flatMap] at hr
              obtain ⟨arg, harg, hrarg⟩ := hr
              exact argRefs_sub_U U cls lit (namedOf fields) arg (hfills arg harg)
                r hrarg
            have hnotpend : r ∉ akeys s.config := by
              intro hpend
              have hlt2 := hrank kv0 hkv0 r hr hpend
              simp only [akeys, List.mem_map] at hpend
              obtain ⟨kv', hkv', hfst⟩ := hpend
              have hge := hmin kv' hkv'
              rw [hfst] at hge
              omega
            have hrE : r ∈ akeys s.experiment := by
              rcases (hgood.2.2.2 r).mpr hrU with h | h
              · exact h
              · exact absurd h hnotpend
            rw [← ahasKey]
            exact (ahasKey_iff _ _).mpr hrE
          obtain ⟨obj, f, hbuilt⟩ := desc_built reg U (akeys s.config) s.experiment
            kv0.2 (hwf kv0 hkv0) hrefs
          have hconf : (passResult reg 2 s).configured ≠ [] := by
            apply scanOnce_configures reg (akeys s.config) s.config s.experiment
              s.factories kv0.1 kv0.2 hok (by
                obtain ⟨k0, v0⟩ := kv0
                exact hkv0)
            exact ⟨obj, f, hbuilt⟩
          rw [build_items_progress reg 2 s hne herr hconf]
          have hlt := passNext_length_lt reg 2 s hconf
          apply ih (passNext reg 2 s) (by omega)
          · exact stepPass_good reg U s (passNext reg 2 s) hgood ⟨2, hne, herr, rfl⟩
          · exact fun kv hkv => hwf kv (passNext_config_sub reg 2 s kv hkv)
          · intro kv hkv r hr hrp
            exact hrank kv (passNext_config_sub reg 2 s kv hkv) r hr
              (by
                simp only [akeys, List.mem_map] at hrp ⊢
                obtain ⟨kv', hkv', hfst⟩ := hrp
                exact ⟨kv', passNext_config_sub reg 2 s kv' hkv', hfst⟩)

theorem akeys_scalarsFold_grow (env : List (String × String)) (k : String) :
    ∀ (l acc : List (String × Val)), k ∈ akeys acc →
      k ∈ akeys (l.foldl (fun acc kv =>
        if isScalar kv.2 then aset acc kv.1 (do_env_subs env kv.2) else acc) acc) := by
  intro l
  induction l with
  | nil => intro acc h; exact h
  | cons e rest ih =>
      intro acc h
      rw [List.foldl_cons]
      apply ih
      by_cases hs : isScalar e.2 = true
      · rw [if_pos hs]
        exact (mem_akeys_aset acc e.1 k _).mpr (Or.inl h)
      · rw [if_neg hs]; exact h

theorem mem_akeys_classifyScalars (env : List (String × String))
    (raw : List (String × Val)) (k : String) (v : Val)
    (hmem : (k, v) ∈ raw) (hs : isScalar v = true) :
    k ∈ akeys (classifyScalars env raw) := by
  rw [classifyScalars]
  suffices haux : ∀ (l acc : List (String × Val)), (k, v) ∈ l →
      k ∈ akeys (l.foldl (fun acc kv =>
        if isScalar kv.2 then aset acc kv.1 (do_env_subs env kv.2) else acc) acc) by
    exact haux raw [] hmem
  intro l
  induction l with
  | nil => intro acc h; simp at h
  | cons e rest ih =>
      intro acc h
      rw [List.foldl_cons]
      rcases List.mem_cons.mp h with he | hr
      · apply akeys_scalarsFold_grow
        rw [← he, if_pos hs]
        exact (mem_akeys_aset acc k k _).mpr (Or.inr rfl)
      · exact ih _ hr

theorem akeys_listsFold_grow (env : List (String × String)) (k : String) :
    ∀ (l acc : List (String × Val)), k ∈ akeys acc →
      k ∈ akeys (classifyLists env l acc) := by
  intro l
  induction l with
  | nil => intro acc h; exact h
  | cons e rest ih =>
      intro acc h
      rw [classifyLists, List.foldl_cons]
      rw [show ∀ acc2, rest.foldl _ acc2 = classifyLists env rest acc2 from fun _ => rfl]
      apply ih
      obtain ⟨ek, ev⟩ := e
      cases ev with
      | vlist els =>
          simp only
          by_cases hs : els.all isScalar = true
          · rw [if_pos hs]
            exact (mem_akeys_aset acc ek k _).mpr (Or.inl h)
          · rw [if_neg hs]; exact h
      | vnull => exact h
      | vbool b => exact h
      | vint n => exact h
      | vstr str => exact h
      | vdict fs => exact h
      | vobj c ps => exact h
      | vself => exact h

theorem mem_akeys_classifyLists (env : List (String × String))
    (raw : List (String × Val)) (acc0 : List (String × Val)) (k : String)
    (els : List Val) (hmem : (k, Val.vlist els) ∈ raw)
    (hs : els.all isScalar = true) :
    k ∈ akeys (classifyLists env raw acc0) := by
  induction raw generalizing acc0 with
  | nil => simp at hmem
  | cons e rest ih =>
      rw [classifyLists, List.foldl_cons]
      rw [show ∀ acc2, rest.foldl _ acc2 = classifyLists env rest acc2 from fun _ => rfl]
      rcases List.mem_cons.mp hmem with he | hr
      · apply akeys_listsFold_grow
        rw [← he]
        simp only
        rw [if_pos hs]
        exact (mem_akeys_aset acc0 k k _).mpr (Or.inr rfl)
      · exact ih _ hr

/-- After classification, every still-pending entry of a well-formed raw
configuration is a well-formed descriptor. -/
theorem classify_pending_wf (reg : Registry) (env : List (String × String))
    (raw : List (String × Val))
    (hwf : ∀ kv ∈ raw, wfEntryB reg (akeys raw) kv.2 = true) :
    ∀ kv ∈ (classifyState env raw).config, wfDescB reg (akeys raw) kv.2 = true := by
  intro kv hkv
  rw [classifyState] at hkv
  simp only at hkv
  obtain ⟨hmem, hp⟩ := List.mem_filter.mp hkv
  simp only [decide_eq_true_eq] at hp
  have hw := hwf kv hmem
  rw [wfEntryB, Bool.or_eq_true] at hw
  rcases hw with hw | hw
  · exfalso
    apply hp
    rw [isSimpleEntry, Bool.or_eq_true] at hw
    apply (ahasKey_iff _ _).mpr
    rcases hw with hw | hw
    · rw [classifyExp]
      apply akeys_listsFold_grow
      exact mem_akeys_classifyScalars env raw kv.1 kv.2 (by
        obtain ⟨k2, v2⟩ := kv
        exact hmem) hw
    · cases hv : kv.2 with
      | vlist els =>
          rw [hv] at hw
          simp only [isSimpleList] at hw
          rw [classifyExp]
          apply mem_akeys_classifyLists env raw _ kv.1 els (by
            rw [← hv]
            obtain ⟨k2, v2⟩ := kv
            exact hmem) hw
      | vnull => rw [hv] at hw; simp [isSimpleList] at hw
      | vbool b => rw [hv] at hw; simp [isSimpleList] at hw
      | vint n => rw [hv] at hw; simp [isSimpleList] at hw
      | vstr s2 => rw [hv] at hw; simp [isSimpleList] at hw
      | vdict fs => rw [hv] at hw; simp [isSimpleList] at hw
      | vobj c ps => rw [hv] at hw; simp [isSimpleList] at hw
      | vself => rw [hv] at hw; simp [isSimpleList] at hw
  · exact hw

theorem rankOk_sub (reg : Registry) (rank : String → Nat)
    (c1 c2 : List (String × Val)) (hsub : ∀ kv ∈ c2, kv ∈ c1)
    (h : RankOk reg rank c1) : RankOk reg rank c2 := by
  intro kv hkv r hr hrp
  apply h kv (hsub kv hkv) r hr
  simp only [akeys, List.mem_map] at hrp ⊢
  obtain ⟨kv', hkv', hfst⟩ := hrp
  exact ⟨kv', hsub kv' hkv', hfst⟩

theorem expInit_ok_of_tiers (reg : Registry) (raw : List (String × Val))
    (env : List (String × String)) (sA sB sC : BuildState)
    (eA eB : Option BuildErr)
    (h0 : build_items reg 0 (classifyState env raw) = (sA, eA))
    (hA : eA = none ∨ ∃ u, eA = some (.unconfigured u))
    (h1 : build_items reg 1 sA = (sB, eB))
    (hB : eB = none ∨ ∃ u, eB = some (.unconfigured u))
    (h2 : build_items reg 2 sB = (sC, none)) :
    expInit reg raw env = .ok (sC.experiment, sC.factories) := by
  rw [expInit, expInitSt]
  rcases hA with rfl | ⟨u, rfl⟩ <;> rcases hB with rfl | ⟨u2, rfl⟩ <;>
    simp only [h0, h1, h2]

/-- A well-formed, reference-acyclic configuration resolves completely:
`__init__` succeeds and the resolved graph's keys are exactly the raw keys. -/
theorem expInit_wf_ok (reg : Registry) (raw : List (String × Val))
    (env : List (String × String)) (rank : String → Nat)
    (hnd : (akeys raw).Nodup)
    (hwf : ∀ kv ∈ raw, wfEntryB reg (akeys raw) kv.2 = true)
    (hrank : RankOk reg rank raw) :
    ∃ e f, expInit reg raw env = .ok (e, f) ∧ (akeys e).Nodup ∧
      ∀ key, key ∈ akeys e ↔ key ∈ akeys raw := by
  have hg0 : GoodState (akeys raw) (classifyState env raw) :=
    classify_good reg env raw hnd
  have hwfc := classify_pending_wf reg env raw hwf
  have hcfgsub : ∀ kv ∈ (classifyState env raw).config, kv ∈ raw := by
    intro kv hkv
    rw [classifyState] at hkv
    simp only at hkv
    exact (List.mem_filter.mp hkv).1
  have hrank0 : RankOk reg rank (classifyState env raw).config := by
    intro kv hkv r hr hrp
    apply hrank kv (hcfgsub kv hkv) r hr
    simp only [akeys, List.mem_map] at hrp ⊢
    obtain ⟨kv', hkv', hfst⟩ := hrp
    exact ⟨kv', hcfgsub kv' hkv', hfst⟩
  rcases h0 : build_items reg 0 (classifyState env raw) with ⟨sA, eA⟩
  obtain ⟨hsubA, hnvA⟩ := by
    have := build_items_wf_sub reg (akeys raw) 0
      (classifyState env raw).config.length (classifyState env raw)
      (Nat.le_refl _) hwfc
    rwa [h0] at this
  have hA : eA = none ∨ ∃ u, eA = some (.unconfigured u) := by
    cases eA with
    | none => exact Or.inl rfl
    | some err =>
        cases err with
        | valueError m => exact absurd rfl (hnvA m)
        | unconfigured u => exact Or.inr ⟨u, rfl⟩
  have hreachA : Reach reg (classifyState env raw) sA := by
    have := build_items_reach reg 0 (classifyState env raw).config.length
      (classifyState env raw) (Nat.le_refl _) (by
        rw [h0]
        rcases hA with rfl | ⟨u, rfl⟩
        · exact Or.inl rfl
        · exact Or.inr ⟨u, rfl⟩)
    rwa [h0] at this
  have hgA : GoodState (akeys raw) sA := reach_good reg _ _ _ hg0 hreachA
  have hwfA : ∀ kv ∈ sA.config, wfDescB reg (akeys raw) kv.2 = true :=
    fun kv hkv => hwfc kv (hsubA kv hkv)
  have hrankA : RankOk reg rank sA.config :=
    rankOk_sub reg rank (classifyState env raw).config sA.config hsubA hrank0
  rcases h1 : build_items reg 1 sA with ⟨sB, eB⟩
  obtain ⟨hsubB, hnvB⟩ := by
    have := build_items_wf_sub reg (akeys raw) 1 sA.config.length sA
      (Nat.le_refl _) hwfA
    rwa [h1] at this
  have hB : eB = none ∨ ∃ u, eB = some (.unconfigured u) := by
    cases eB with
    | none => exact Or.inl rfl
    | some err =>
        cases err with
        | valueError m => exact absurd rfl (hnvB m)
        | unconfigured u => exact Or.inr ⟨u, rfl⟩
  have hreachB : Reach reg sA sB := by
    have := build_items_reach reg 1 sA.config.length sA (Nat.le_refl _) (by
      rw [h1]
      rcases hB with rfl | ⟨u, rfl⟩
      · exact Or.inl rfl
      · exact Or.inr ⟨u, rfl⟩)
    rwa [h1] at this
  have hgB : GoodState (akeys raw) sB := reach_good reg _ _ _ hgA hreachB
  have hwfB : ∀ kv ∈ sB.config, wfDescB reg (akeys raw) kv.2 = true :=
    fun kv hkv => hwfA kv (hsubB kv hkv)
  have hrankB : RankOk reg rank sB.config :=
    rankOk_sub reg rank sA.config sB.config hsubB hrankA
  have hC2 : (build_items reg 2 sB).2 = none :=
    build_items_tier2_ok reg (akeys raw) rank sB.config.length sB
      (Nat.le_refl _) hgB hwfB hrankB
  rcases h2 : build_items reg 2 sB with ⟨sC, eC⟩
  rw [h2] at hC2
  simp only at hC2
  subst hC2
  have hreachC : Reach reg sB sC := by
    have := build_items_reach reg 2 sB.config.length sB (Nat.le_refl _)
      (by rw [h2]; exact Or.inl rfl)
    rwa [h2] at this
  have hgC : GoodState (akeys raw) sC := reach_good reg _ _ _ hgB hreachC
  have hnilC : sC.config = [] := by
    have := build_items_ok_empty reg 2 sB.config.length sB (Nat.le_refl _)
      (by rw [h2])
    rwa [h2] at this
  refine ⟨sC.experiment, sC.factories,
    expInit_ok_of_tiers reg raw env sA sB sC eA eB h0 hA h1 hB h2,
    hgC.2.2.1, ?_⟩
  intro key
  have hcov := hgC.2.2.2 key
  rw [hnilC] at hcov
  constructor
  · intro hk
    exact hcov.mp (Or.inl hk)
  · intro hk
    rcases hcov.mpr hk with h | h
    · exact h
    · simp [akeys] at h

theorem all_congr_bool {α : Type} (l : List α) (p q : α → Bool)
    (h : ∀ x ∈ l, p x = q x) : l.all p = l.all q := by
  induction l with
  | nil => rfl
  | cons x xs ih =>
      simp only [List.all_cons]
      rw [h x (by simp), ih (fun y hy => h y (List.mem_cons_of_mem x hy))]

theorem contains_congr (U U' : List String)
    (h : ∀ x, x ∈ U ↔ x ∈ U') (a : String) : U.contains a = U'.contains a := by
  by_cases hm : a ∈ U
  · rw [show U.contains a = true from List.elem_eq_true_of_mem hm,
      show U'.contains a = true from List.elem_eq_true_of_mem ((h a).mp hm)]
  · have hm' : a ∉ U' := fun hx => hm ((h a).mpr hx)
    have h1 : U.contains a = false := by
      cases hc : U.contains a with
      | false => rfl
      | true => exact absurd (List.elem_iff.mp hc) hm
    have h2 : U'.contains a = false := by
      cases hc : U'.contains a with
      | false => rfl
      | true => exact absurd (List.elem_iff.mp hc) hm'
    rw [h1, h2]

theorem argFills_congr (U U' : List String) (cls : ClassSpec)
    (lit named : List (String × Val)) (arg : String)
    (h : ∀ x, x ∈ U ↔ x ∈ U') :
    argFills U cls lit named arg = argFills U' cls lit named arg := by
  rw [argFills, argFills]
  congr 1
  cases hn : alookup named arg with
  | none =>
      simp only
      rw [contains_congr U U' h arg]
  | some al =>
      cases al with
      | vstr a => simp only; rw [contains_congr U U' h a]
      | vlist ns =>
          simp only
          apply all_congr_bool
          intro e he
          cases e with
          | vstr a => simp only; rw [contains_congr U U' h a]
          | vnull => rfl
          | vbool b => rfl
          | vint n2 => rfl
          | vlist l2 => rfl
          | vdict d2 => rfl
          | vobj c2 p2 => rfl
          | vself => rfl
      | vnull => rfl
      | vbool b => rfl
      | vint n2 => rfl
      | vdict d2 => rfl
      | vobj c2 p2 => rfl
      | vself => rfl

theorem wfDescB_congr (reg : Registry) (U U' : List String) (v : Val)
    (h : ∀ x, x ∈ U ↔ x ∈ U') :
    wfDescB reg U v = wfDescB reg U' v := by
  cases v with
  | vdict fields =>
      cases hname : alookup fields "_name" with
      | none => simp only [wfDescB, hname]
      | some nv =>
          cases nv with
          | vstr n =>
              cases hreg : alookup reg n with
              | none => simp only [wfDescB, hname, hreg]
              | some cls =>
                  cases hval : validateAndLiterals fields with
                  | error e => simp only [wfDescB, hname, hreg, hval]
                  | ok lit =>
                      simp only [wfDescB, hname, hreg, hval]
                      congr 1
                      apply all_congr_bool
                      intro arg _
                      exact argFills_congr U U' cls lit (namedOf fields) arg h
          | vnull => simp only [wfDescB, hname]
          | vbool b => simp only [wfDescB, hname]
          | vint n => simp only [wfDescB, hname]
          | vlist xs => simp only [wfDescB, hname]
          | vdict fs => simp only [wfDescB, hname]
          | vobj c ps => simp only [wfDescB, hname]
          | vself => simp only [wfDescB, hname]
  | vnull => rfl
  | vbool b => rfl
  | vint n => rfl
  | vstr s2 => rfl
  | vlist xs => rfl
  | vobj c ps => rfl
  | vself => rfl

theorem wfEntryB_congr (reg : Registry) (U U' : List String) (v : Val)
    (h : ∀ x, x ∈ U ↔ x ∈ U') :
    wfEntryB reg U v = wfEntryB reg U' v := by
  rw [wfEntryB, wfEntryB, wfDescB_congr reg U U' v h]

/-- Counterexample to C6 as stated: the configuration
`{b: {_name: Box, value: "nope"}}` has *no* dependency edges among required
non-defaultable parameters (its one reference does not name a configuration
key), hence no dependency cycles, yet construction fails with
`UnconfiguredItemsException` instead of terminating with zero pending
entries. -/
theorem C6_counterexample :
    claimDeps regT
        [("b", Val.vdict [("_name", Val.vstr "Box"), ("value", Val.vstr "nope")])] = [] ∧
    expInit regT
        [("b", Val.vdict [("_name", Val.vstr "Box"), ("value", Val.vstr "nope")])] [] =
      .error (.unconfigured [("b", ["value"])]) := by
  refine ⟨rfl, ?_⟩
  have hA := build_items_stuck regT 0
    (classifyState [] [("b", Val.vdict [("_name", Val.vstr "Box"), ("value", Val.vstr "nope")])])
    (fun hc => nomatch hc) rfl rfl
  have hB := build_items_stuck regT 1
    (classifyState [] [("b", Val.vdict [("_name", Val.vstr "Box"), ("value", Val.vstr "nope")])])
    (fun hc => nomatch hc) rfl rfl
  have hC := build_items_stuck regT 2
    (classifyState [] [("b", Val.vdict [("_name", Val.vstr "Box"), ("value", Val.vstr "nope")])])
    (fun hc => nomatch hc) rfl rfl
  rw [expInit, expInitSt]
  simp only [hA, hB, hC]
  rfl

/-- **C6 (amended).** For every well-formed configuration — duplicate-free
keys; every entry a scalar, a scalar list, or a descriptor with a registered
type, valid parameter shapes, and every constructor argument fillable
(literal, self-reference, alias naming existing keys, direct key, or
default) — whose key references admit a ranking with references to pending
keys strictly decreasing (no dependency cycles, aliases of defaultable
parameters included, since an alias blocks the default branch): construction
succeeds with zero pending entries, the resolved keys are exactly the raw
keys, and this holds for every permutation of the declaration order. -/
theorem C6_acyclic_order_independent (reg : Registry) (raw : List (String × Val))
    (env : List (String × String)) (rank : String → Nat)
    (hnd : (akeys raw).Nodup)
    (hwf : ∀ kv ∈ raw, wfEntryB reg (akeys raw) kv.2 = true)
    (hrank : RankOk reg rank raw) :
    (∃ e f, expInit reg raw env = .ok (e, f) ∧ (akeys e).Nodup ∧
      ∀ key, key ∈ akeys e ↔ key ∈ akeys raw) ∧
    (∀ raw', List.Perm raw' raw →
      ∃ e f, expInit reg raw' env = .ok (e, f) ∧ (akeys e).Nodup ∧
        ∀ key, key ∈ akeys e ↔ key ∈ akeys raw) := by
  constructor
  · exact expInit_wf_ok reg raw env rank hnd hwf hrank
  · intro raw' hperm
    have hkeysperm : List.Perm (akeys raw') (akeys raw) := hperm.map Prod.fst
    have hnd' : (akeys raw').Nodup := (hkeysperm.nodup_iff).mpr hnd
    have hiff : ∀ x, x ∈ akeys raw' ↔ x ∈ akeys raw := fun x => hkeysperm.mem_iff
    have hwf' : ∀ kv ∈ raw', wfEntryB reg (akeys raw') kv.2 = true := by
      intro kv hkv
      rw [wfEntryB_congr reg (akeys raw') (akeys raw) kv.2 hiff]
      exact hwf kv (hperm.subset hkv)
    have hrank' : RankOk reg rank raw' := by
      intro kv hkv r hr hrp
      exact hrank kv (hperm.subset hkv) r hr ((hiff r).mp hrp)
    obtain ⟨e, f, h1, h2, h3⟩ := expInit_wf_ok reg raw' env rank hnd' hwf' hrank'
    exact ⟨e, f, h1, h2, fun key => (h3 key).trans (hiff key)⟩

/-- Witness for C6 (amended): `{b: {_name: Box, value: "a"}, a: 5}` with the
forward reference declared first. -/
theorem C6_acyclic_order_independent_witness :
    (∃ e f, expInit regT
        [("b", Val.vdict [("_name", Val.vstr "Box"), ("value", Val.vstr "a")]),
          ("a", Val.vint 5)] [] = .ok (e, f) ∧ (akeys e).Nodup ∧
      ∀ key, key ∈ akeys e ↔
        key ∈ akeys [("b", Val.vdict [("_name", Val.vstr "Box"), ("value", Val.vstr "a")]),
          ("a", Val.vint 5)]) ∧
    (∀ raw', List.Perm raw'
        [("b", Val.vdict [("_name", Val.vstr "Box"), ("value", Val.vstr "a")]),
          ("a", Val.vint 5)] →
      ∃ e f, expInit regT raw' [] = .ok (e, f) ∧ (akeys e).Nodup ∧
        ∀ key, key ∈ akeys e ↔
          key ∈ akeys [("b", Val.vdict [("_name", Val.vstr "Box"), ("value", Val.vstr "a")]),
            ("a", Val.vint 5)]) := by
  apply C6_acyclic_order_independent regT _ []
    (fun k => if k = "b" then 1 else 0)
  · decide
  · intro kv hkv
    rcases List.mem_cons.mp hkv with rfl | hkv
    · rfl
    rcases List.mem_cons.mp hkv with rfl | hkv
    · rfl
    cases hkv
  · intro kv hkv r hr hrm
    rcases List.mem_cons.mp hkv with rfl | hkv
    · have hds : descRefs regT
          (Val.vdict [("_name", Val.vstr "Box"), ("value", Val.vstr "a")]) = ["a"] := rfl
      rw [hds] at hr
      rcases List.mem_singleton.mp hr with rfl
      decide
    rcases List.mem_cons.mp hkv with rfl | hkv
    · have hds : descRefs regT (Val.vint 5) = [] := rfl
      rw [hds] at hr
      cases hr
    cases hkv

end TNLP
